import Mathlib

/-!
Verification development for the URL state codec of the LuckyDefense tools
repository (`src/dps_sim_1/static/js/url_state.js`, with the base64url
helpers from `src/static/js/party_ui.js` and the relic key list from
`dom.js`).

Modelling conventions:
* JS strings are Lean `String`s manipulated through their `.data` character
  lists; all helper functions are structurally recursive so that concrete
  inputs evaluate by `decide` / `rfl`.
* JS numbers that occur here are exact: integers become `Int`/`Nat`, and the
  finite decimal literals read from the UI are modelled by `DecNum`
  (an exact value `num / 10 ^ exp`).  IEEE-754 rounding is not modelled; every
  value appearing in these code paths (integers below 2^31 and half-integers
  below 32) is exactly representable in a double, and `parseInt` results are
  exact below 2^53.
* `NaN` is modelled by `Option.none`.
* JS 32-bit coercions (`|0`, `>>`, `&`) are modelled by `toInt32` together
  with euclidean `/` and `%` on `Int`, which agree with two's-complement
  arithmetic shift and low-bit masking.
* Thrown exceptions are modelled by `Except.error` (or by `none` for `atob`,
  whose only failure mode is a throw); `try/catch` maps `error` to `none`.
-/

/-- ASCII whitespace as skipped by JS `parseInt` / `Number` (TAB, LF, VT, FF,
CR, SPACE; the additional Unicode space characters are not modelled). -/
def isJsWs (c : Char) : Bool :=
  c.toNat = 9 || c.toNat = 10 || c.toNat = 11 || c.toNat = 12 || c.toNat = 13 || c.toNat = 32

/-- Digits accepted by `parseInt(_, 36)`: `0`-`9`, `a`-`z`, `A`-`Z`. -/
def isB36Digit (c : Char) : Bool :=
  (48 ≤ c.toNat && c.toNat ≤ 57) || (97 ≤ c.toNat && c.toNat ≤ 122) ||
    (65 ≤ c.toNat && c.toNat ≤ 90)

/-- Value of a base-36 digit character. -/
def b36DigitVal (c : Char) : Nat :=
  if c.toNat ≤ 57 then c.toNat - 48
  else if c.toNat ≤ 90 then c.toNat - 55
  else c.toNat - 87

/-- Bit length of `n` (`fuel` only forces structural recursion; any
`fuel ≥ n` yields the true value). -/
def natBits (fuel n : Nat) : Nat :=
  match fuel with
  | 0 => 0
  | f + 1 => if n = 0 then 0 else natBits f (n / 2) + 1

/-- Round a nonnegative integer to the nearest IEEE-754 double (53-bit
significand, round half to even): integers below 2^53 are exact, above
that the low `bits - 53` bits are rounded away; `none` models an overflow
to `Infinity` (rounded magnitude at least 2^1024). -/
def jsDouble (n : Nat) : Option Nat :=
  let b := natBits n n
  if b ≤ 53 then some n
  else
    let k := b - 53
    let q := n / 2 ^ k
    let r := n % 2 ^ k
    let q1 := if 2 * r > 2 ^ k ∨ (2 * r = 2 ^ k ∧ q % 2 = 1) then q + 1 else q
    if 2 ^ 1024 ≤ q1 * 2 ^ k then none else some (q1 * 2 ^ k)

/-- JS `parseInt(s, 36)`: skip leading whitespace, optional sign, then the
longest prefix of base-36 digits; trailing characters are ignored.  The
numeral's mathematical value is rounded to an IEEE-754 double
(`jsDouble`).  `none` covers both `NaN` (empty digit prefix) and
`Infinity` (numeral past the double range); every caller in `url_state.js`
rejects both through the same `Number.isFinite` guard. -/
def jsParseInt36 (s : String) : Option Int :=
  let t := s.data.dropWhile (fun c => isJsWs c)
  let sign : Int := if t.head? = some ('-') then -1 else 1
  let t1 := if t.head? = some ('+') ∨ t.head? = some ('-') then t.tail else t
  let ds := t1.takeWhile (fun c => isB36Digit c)
  if ds.isEmpty then none
  else
    match jsDouble (ds.foldl (fun a c => a * 36 + b36DigitVal c) 0) with
    | none => none
    | some v => some (sign * (v : Int))

/-- Lowercase base-36 digit character, as produced by JS
`Number.prototype.toString(36)`. -/
def b36Char (d : Nat) : Char :=
  if d < 10 then Char.ofNat (48 + d) else Char.ofNat (87 + d)

/-- Digit accumulator for base-36 printing; `fuel` only forces structural
recursion and any `fuel > n` yields the digits of `n`, most significant
first, in front of `acc`. -/
def natToB36Go (fuel n : Nat) (acc : List Char) : List Char :=
  match fuel with
  | 0 => acc
  | fuel + 1 =>
    if n < 36 then b36Char n :: acc
    else natToB36Go fuel (n / 36) (b36Char (n % 36) :: acc)

/-- Digit list of `n` in base 36, most significant first. -/
def natToB36Digits (n : Nat) : List Char := natToB36Go (n + 1) n []

/-- JS `n.toString(36)` for a nonnegative integer `n`. -/
def natToB36 (n : Nat) : String := ⟨natToB36Digits n⟩

/-- Exact value of a finite decimal literal: `num / 10 ^ exp`.  Used to model
the JS numbers read from the UI selects. -/
structure DecNum where
  num : Int
  exp : Nat
  deriving DecidableEq

/-- ASCII decimal digit. -/
def isDecDigit (c : Char) : Bool := 48 ≤ c.toNat && c.toNat ≤ 57

/-- Value of a list of decimal digit characters. -/
def decVal (ds : List Char) : Nat := ds.foldl (fun a c => a * 10 + (c.toNat - 48)) 0

/-- JS `Number(s)` on the string fragment relevant here: trimmed decimal
numerals with an optional sign and fractional part (`""` is 0; `"3"`,
`"3.5"`, `".5"`, `"5."` parse; anything else in this fragment is `NaN`,
modelled as `none`).  Hex, exponent and `Infinity` forms do not occur in the
modelled code paths and are not modelled.  The exact rational is kept. -/
def jsNumber (s : String) : Option DecNum :=
  let t := ((s.data.dropWhile (fun c => isJsWs c)).reverse.dropWhile
    (fun c => isJsWs c)).reverse
  if t.isEmpty then some (⟨0, 0⟩) else
  let sign : Int := if t.head? = some ('-') then -1 else 1
  let t1 := if t.head? = some ('+') ∨ t.head? = some ('-') then t.tail else t
  let ip := t1.takeWhile (fun c => isDecDigit c)
  let rest := t1.dropWhile (fun c => isDecDigit c)
  match rest with
  | [] => if ip.isEmpty then none else some ⟨sign * decVal ip, 0⟩
  | ('.') :: fp =>
    if fp.all (fun c => isDecDigit c) && !(ip.isEmpty && fp.isEmpty) then
      some ⟨sign * (decVal ip * 10 ^ fp.length + decVal fp), fp.length⟩
    else none
  | _ => none

/-- ECMAScript `ToInt32`: wrap an integer into `[-2^31, 2^31)`. -/
def toInt32 (x : Int) : Int :=
  let r := x % 4294967296
  if r < 2147483648 then r else r - 4294967296

/-- JS `Number(v) | 0`: `NaN` becomes 0, otherwise truncate toward zero and
wrap to 32 bits. -/
def jsToInt32Num (x : Option DecNum) : Int :=
  match x with
  | none => 0
  | some d => toInt32 (Int.tdiv d.num (10 ^ d.exp))

/-- JS `Math.round(2 * value)` on an exact decimal: `round(x) = ⌊x + 1/2⌋`. -/
def jsRound2 (d : DecNum) : Int :=
  (4 * d.num + 10 ^ d.exp) / (2 * 10 ^ d.exp)

/-- JS `===` on two numbers where `none` models `NaN` (never equal). -/
def decNumEqb (a b : Option DecNum) : Bool :=
  match a, b with
  | some x, some y => x.num * 10 ^ y.exp == y.num * 10 ^ x.exp
  | _, _ => false

/-- The record held in the three other-buffs form controls
(`url_state.js`, `getOtherBuffsFromUI`). -/
structure OtherBuffs where
  guildBlessing : String
  unitLevelSumBuff : String
  petLevelSum : String
  deriving DecidableEq

/-- `OTHER_DEFAULTS` of `url_state.js`. -/
def OTHER_DEFAULTS : OtherBuffs := ⟨"1", "0", "hoge"⟩

/-- `PET_LEVEL_SUM_VALUES` of `url_state.js` (three entries). -/
def PET_LEVEL_SUM_VALUES : List String := ["hoge", "fuga", "piyo"]

/-- JS `Array.prototype.indexOf` (first index, `none` for the -1 case). -/
def jsIndexOf (x : String) : List String → Option Nat
  | [] => none
  | y :: t => if y = x then some 0 else (jsIndexOf x t).map (fun i => i + 1)

/-- `packOtherBuffs` of `url_state.js`:
`g = Math.max(0, Math.min(3, Number(other.guildBlessing) | 0))`,
`u2 = Math.max(0, Math.min(50, Math.round(Number(other.unitLevelSumBuff) * 2)))`
(`NaN` propagates through `round`/`min`/`max` and is zeroed by the later
`& 63`), `p = (indexOf >= 0 ? indexOf : 0) & 3`, then
`n = ((g & 3) << 8) | ((u2 & 63) << 2) | (p & 3)` rendered in base 36.
The `&` masks on these nonnegative values are `% 4` / `% 64`. -/
def packOtherBuffs (other : OtherBuffs) : String :=
  let g : Int := max 0 (min 3 (jsToInt32Num (jsNumber other.guildBlessing)))
  let u2 : Option Int := (jsNumber other.unitLevelSumBuff).map
    (fun d => max 0 (min 50 (jsRound2 d)))
  let p : Nat := ((jsIndexOf other.petLevelSum PET_LEVEL_SUM_VALUES).getD 0) % 4
  let gN : Nat := g.toNat % 4
  let u2N : Nat := (match u2 with | some v => v.toNat | none => 0) % 64
  let n : Nat := (gN <<< 8) ||| (u2N <<< 2) ||| (p % 4)
  natToB36 n

/-- `unpackOtherBuffs` of `url_state.js`: parse base 36; `NaN` is rejected;
then `g = (n >> 8) & 3`, `u2 = (n >> 2) & 63`, `p = n & 3` (32-bit
operations, here `toInt32` with euclidean `/`, `%`), and the record is
rebuilt: `unitLevelSumBuff` is `"0"`, `val.toFixed(1)` or `String(val)` for
`val = u2 / 2`, `petLevelSum` is looked up with the first entry as
fallback. -/
def unpackOtherBuffs (oStr : String) : Option OtherBuffs :=
  match jsParseInt36 oStr with
  | none => none
  | some n =>
    let g : Nat := (((toInt32 n) / 256) % 4).toNat
    let u2 : Nat := (((toInt32 n) / 4) % 64).toNat
    let p : Nat := ((toInt32 n) % 4).toNat
    let unitLevelSumBuff : String :=
      if u2 = 0 then "0"
      else if u2 % 2 = 0 then toString (u2 / 2) ++ ".0"
      else toString (u2 / 2) ++ ".5"
    some ⟨toString g, unitLevelSumBuff, (PET_LEVEL_SUM_VALUES.get? p).getD OTHER_DEFAULTS.petLevelSum⟩

/-! ### Helper lemmas: list scanning -/

/-- takeWhile keeps a list all of whose elements satisfy the predicate. -/
theorem takeWhile_all {α : Type} (p : α → Bool) :
    ∀ l : List α, (∀ c ∈ l, p c = true) → l.takeWhile p = l := by
  intro l
  induction l with
  | nil => intro _; rfl
  | cons c t ih =>
    intro h
    have hc : p c = true := h c (by simp)
    have ht : List.takeWhile p t = t := ih (fun x hx => h x (by simp [hx]))
    simp [List.takeWhile_cons, hc, ht]

/-- dropWhile removes nothing when the head fails the predicate. -/
theorem dropWhile_head_false {α : Type} (p : α → Bool) (c : α) (t : List α)
    (h : p c = false) : (c :: t).dropWhile p = c :: t := by
  simp [List.dropWhile_cons, h]

/-- takeWhile over an append stops exactly at the junction when the left part
is all-true and the right part starts false. -/
theorem takeWhile_append_head {α : Type} (p : α → Bool) :
    ∀ ds rest : List α, (∀ c ∈ ds, p c = true) →
      (∀ c, rest.head? = some c → p c = false) →
      (ds ++ rest).takeWhile p = ds := by
  intro ds
  induction ds with
  | nil =>
    intro rest _ hrest
    cases rest with
    | nil => rfl
    | cons r t => simp [List.takeWhile_cons, hrest r rfl]
  | cons c t ih =>
    intro rest h hrest
    have hc : p c = true := h c (by simp)
    have ht := ih rest (fun x hx => h x (by simp [hx])) hrest
    simp [List.cons_append, List.takeWhile_cons, hc, ht]

/-- dropWhile over an append reaches exactly the junction when the left part
is all-true and the right part starts false. -/
theorem dropWhile_append_head {α : Type} (p : α → Bool) :
    ∀ ds rest : List α, (∀ c ∈ ds, p c = true) →
      (∀ c, rest.head? = some c → p c = false) →
      (ds ++ rest).dropWhile p = rest := by
  intro ds
  induction ds with
  | nil =>
    intro rest _ hrest
    cases rest with
    | nil => rfl
    | cons r t => simp [List.dropWhile_cons, hrest r rfl]
  | cons c t ih =>
    intro rest h hrest
    have hc : p c = true := h c (by simp)
    have ht := ih rest (fun x hx => h x (by simp [hx])) hrest
    simp [List.cons_append, List.dropWhile_cons, hc, ht]

/-! ### Helper lemmas: base-36 printing and parsing -/

theorem b36Char_val : ∀ d, d < 36 → b36DigitVal (b36Char d) = d := by decide

theorem b36Char_digit : ∀ d, d < 36 → isB36Digit (b36Char d) = true := by decide

/-- a base-36 digit character is not whitespace. -/
theorem b36_digit_not_ws (c : Char) (h : isB36Digit c = true) : isJsWs c = false := by
  simp only [isB36Digit, Bool.or_eq_true, Bool.and_eq_true, decide_eq_true_eq] at h
  simp only [isJsWs, Bool.or_eq_false_iff, decide_eq_false_iff_not]
  omega

/-- a base-36 digit character is not the plus sign. -/
theorem b36_digit_ne_plus (c : Char) (h : isB36Digit c = true) : c ≠ ('+') := by
  intro hc
  subst hc
  simp [isB36Digit] at h

/-- a base-36 digit character is not the minus sign. -/
theorem b36_digit_ne_minus (c : Char) (h : isB36Digit c = true) : c ≠ ('-') := by
  intro hc
  subst hc
  simp [isB36Digit] at h

/-- With enough fuel, the base-36 digit accumulator satisfies the natural
recurrence. -/
theorem natToB36Go_eq :
    ∀ n fuel acc, n < fuel →
      natToB36Go fuel n acc =
        (if n < 36 then [b36Char n]
         else natToB36Digits (n / 36) ++ [b36Char (n % 36)]) ++ acc := by
  intro n
  induction n using Nat.strong_induction_on with
  | _ n ih =>
    intro fuel acc hf
    match fuel, hf with
    | fuel + 1, _ =>
      by_cases h36 : n < 36
      · simp [natToB36Go, h36]
      · have hdiv : n / 36 < n := Nat.div_lt_self (by omega) (by omega)
        have hfuel2 : n / 36 < fuel := by omega
        simp only [natToB36Go, if_neg h36]
        rw [ih (n / 36) hdiv fuel (b36Char (n % 36) :: acc) hfuel2]
        have hDigits : natToB36Digits (n / 36) =
            (if n / 36 < 36 then [b36Char (n / 36)]
             else natToB36Digits (n / 36 / 36) ++ [b36Char (n / 36 % 36)]) ++ [] := by
          exact ih (n / 36) hdiv (n / 36 + 1) [] (by omega)
        rw [hDigits]
        simp

/-- Recurrence for the base-36 digit list. -/
theorem natToB36Digits_eq (n : Nat) :
    natToB36Digits n =
      if n < 36 then [b36Char n]
      else natToB36Digits (n / 36) ++ [b36Char (n % 36)] := by
  have h := natToB36Go_eq n (n + 1) [] (by omega)
  simpa [natToB36Digits] using h

theorem natToB36Digits_ne_nil (n : Nat) : natToB36Digits n ≠ [] := by
  rw [natToB36Digits_eq]
  by_cases h : n < 36 <;> simp [h]

theorem natToB36Digits_all_digits (n : Nat) :
    ∀ c ∈ natToB36Digits n, isB36Digit c = true := by
  induction n using Nat.strong_induction_on with
  | _ n ih =>
    rw [natToB36Digits_eq]
    by_cases h : n < 36
    · simpa [h] using b36Char_digit n h
    · simp only [if_neg h, List.mem_append, List.mem_singleton]
      intro c hc
      rcases hc with hc | hc
      · exact ih (n / 36) (Nat.div_lt_self (by omega) (by omega)) c hc
      · subst hc
        exact b36Char_digit (n % 36) (by omega)

/-- Folding the base-36 digits of `n` onto an accumulator `a` yields
`a * 36 ^ length + n`. -/
theorem natToB36Digits_foldl (n : Nat) :
    ∀ a : Nat, (natToB36Digits n).foldl (fun x c => x * 36 + b36DigitVal c) a =
      a * 36 ^ (natToB36Digits n).length + n := by
  induction n using Nat.strong_induction_on with
  | _ n ih =>
    intro a
    rw [natToB36Digits_eq]
    by_cases h : n < 36
    · simp [h, List.foldl_cons, b36Char_val n h]
    · have hdiv : n / 36 < n := Nat.div_lt_self (by omega) (by omega)
      simp only [if_neg h, List.foldl_append, List.foldl_cons, List.foldl_nil,
        List.length_append, List.length_singleton]
      rw [ih (n / 36) hdiv a, b36Char_val (n % 36) (by omega), Nat.pow_succ]
      have : a * (36 ^ (natToB36Digits (n / 36)).length * 36) =
          a * 36 ^ (natToB36Digits (n / 36)).length * 36 := by ring
      rw [this]
      omega

/-- `natBits` of 0 is 0 for every fuel. -/
theorem natBits_zero (f : Nat) : natBits f 0 = 0 := by
  cases f <;> rfl

/-- With sufficient fuel, `natBits` is the bit length: `n < 2 ^ bits` and
`2 ^ bits ≤ 2 * n` for nonzero `n`. -/
theorem natBits_spec : ∀ n : Nat, ∀ f : Nat, n ≤ f → n ≠ 0 →
    n < 2 ^ natBits f n ∧ 2 ^ natBits f n ≤ 2 * n := by
  intro n
  induction n using Nat.strong_induction_on with
  | _ n ih =>
    intro f hf hn
    obtain ⟨f1, rfl⟩ : ∃ f1, f = f1 + 1 := ⟨f - 1, by omega⟩
    have hstep : natBits (f1 + 1) n = natBits f1 (n / 2) + 1 := by
      simp [natBits, hn]
    rw [hstep]
    by_cases h2 : n / 2 = 0
    · have hn1 : n = 1 := by omega
      subst hn1
      rw [h2, natBits_zero]
      norm_num
    · obtain ⟨ha, hb⟩ := ih (n / 2) (by omega) f1 (by omega) h2
      rw [pow_succ]
      omega

/-- Integers below 2^53 are exactly representable doubles. -/
theorem jsDouble_small (n : Nat) (h : n < 2 ^ 53) : jsDouble n = some n := by
  have hb : natBits n n ≤ 53 := by
    by_cases hn : n = 0
    · subst hn
      rw [natBits_zero]
      omega
    · obtain ⟨_, hb2⟩ := natBits_spec n n le_rfl hn
      by_contra hc
      have h3 : (2 : Nat) ^ 54 ≤ 2 ^ natBits n n :=
        Nat.pow_le_pow_right (by omega) (by omega)
      have h4 : (2 : Nat) ^ 54 = 2 * 2 ^ 53 := by norm_num
      omega
  simp only [jsDouble]
  rw [if_pos hb]

/-- `toString(36)` of an exactly-representable value parses back to it. -/
theorem jsParseInt36_natToB36 (n : Nat) (h53 : n < 2 ^ 53) : jsParseInt36 (natToB36 n) = some ((n : Int)) := by
  have hdig := natToB36Digits_all_digits n
  have hne := natToB36Digits_ne_nil n
  obtain ⟨c, t, hct⟩ : ∃ c t, natToB36Digits n = c :: t := by
    cases hl : natToB36Digits n with
    | nil => exact absurd hl hne
    | cons c t => exact ⟨c, t, rfl⟩
  have hcd : isB36Digit c = true := hdig c (by rw [hct]; simp)
  have hdrop : (natToB36Digits n).dropWhile (fun c => isJsWs c) = natToB36Digits n := by
    rw [hct]
    exact dropWhile_head_false (fun c => isJsWs c) c t (b36_digit_not_ws c hcd)
  have hminus : ¬((natToB36Digits n).head? = some ('-')) := by
    rw [hct]
    simp only [List.head?_cons, Option.some.injEq]
    exact fun hcm => b36_digit_ne_minus c hcd hcm
  have hsigns : ¬((natToB36Digits n).head? = some ('+') ∨
      (natToB36Digits n).head? = some ('-')) := by
    rw [hct]
    simp only [List.head?_cons, Option.some.injEq]
    rintro (hcm | hcm)
    · exact b36_digit_ne_plus c hcd hcm
    · exact b36_digit_ne_minus c hcd hcm
  have htake : (natToB36Digits n).takeWhile (fun c => isB36Digit c) = natToB36Digits n :=
    takeWhile_all (fun c => isB36Digit c) (natToB36Digits n) hdig
  have hempty : (natToB36Digits n).isEmpty = false := by
    rw [hct]; rfl
  simp only [jsParseInt36, natToB36, hdrop, if_neg hminus, if_neg hsigns, htake, hempty,
    Bool.false_eq_true, if_false]
  rw [natToB36Digits_foldl n 0]
  simp only [Nat.zero_mul, Nat.zero_add]
  rw [jsDouble_small n h53]
  simp

/-! ### Other-buffs decoding: shapes of decoded records -/

/-- The decoded `unitLevelSumBuff` string for a doubled value `u2`
(`"0"`, `val.toFixed(1)` for even `u2`, `String(val)` for odd `u2`); the
same formatting builds the option values of the `unitLevelSumBuff` select
in `party_ui.js` (`populateUnitLevelSumBuffSelect`). -/
def unitStr (u2 : Nat) : String :=
  if u2 = 0 then "0"
  else if u2 % 2 = 0 then toString (u2 / 2) ++ ".0"
  else toString (u2 / 2) ++ ".5"

/-- Twice the numeric value denoted by `s`, when `Number(s)` is a
half-integer (`some (2 * Number(s))`); `none` otherwise.  Used to state
range facts about decoded `unitLevelSumBuff` strings. -/
def halfTwice (s : String) : Option Int :=
  match jsNumber s with
  | none => none
  | some d => if 2 * d.num % ((10 : Int) ^ d.exp) = 0
      then some (2 * d.num / (10 : Int) ^ d.exp) else none

/-- Every record produced by `unpackOtherBuffs` consists of a 2-bit guild
value, a 6-bit doubled unit value formatted by `unitStr`, and a pet lookup
of a 2-bit index. -/
theorem unpack_shape (s : String) (rec : OtherBuffs)
    (h : unpackOtherBuffs s = some rec) :
    ∃ g u2 p : Nat, g < 4 ∧ u2 < 64 ∧ p < 4 ∧
      rec = ⟨toString g, unitStr u2,
        (PET_LEVEL_SUM_VALUES.get? p).getD OTHER_DEFAULTS.petLevelSum⟩ := by
  obtain ⟨n, hp⟩ : ∃ n, jsParseInt36 s = some n := by
    cases hp : jsParseInt36 s with
    | none => simp [unpackOtherBuffs, hp] at h
    | some n => exact ⟨n, rfl⟩
  simp only [unpackOtherBuffs, hp, Option.some.injEq] at h
  refine ⟨((toInt32 n / 256) % 4).toNat, ((toInt32 n / 4) % 64).toNat,
    ((toInt32 n) % 4).toNat, by omega, by omega, by omega, ?_⟩
  rw [← h]
  simp [unitStr]

/-- For every doubled value below 64, the decoded string denotes exactly
that half-integer. -/
theorem halfTwice_unitStr : ∀ u2 : Nat, u2 < 64 → halfTwice (unitStr u2) = some ((u2 : Int)) := by
  decide

/-- Parsing a string made of a nonempty base-36 digit prefix followed by a
non-digit remainder depends only on the prefix: the result is the rounded
value of the prefix numeral (no value on overflow). -/
theorem jsParseInt36_digit_prefix (ds rest : List Char) (hne : ds ≠ [])
    (hall : ∀ c ∈ ds, isB36Digit c = true)
    (hrest : ∀ c, rest.head? = some c → isB36Digit c = false) :
    jsParseInt36 ⟨ds ++ rest⟩ =
      (match jsDouble (ds.foldl (fun a c => a * 36 + b36DigitVal c) 0) with
       | none => none
       | some v => some ((v : Int))) := by
  obtain ⟨c, t, hct⟩ : ∃ c t, ds = c :: t := by
    cases ds with
    | nil => exact absurd rfl hne
    | cons c t => exact ⟨c, t, rfl⟩
  subst hct
  have hcd : isB36Digit c = true := hall c (by simp)
  have hws : isJsWs c = false := b36_digit_not_ws c hcd
  have hdrop : ((c :: t) ++ rest).dropWhile (fun x => isJsWs x) = (c :: t) ++ rest := by
    rw [List.cons_append]
    exact dropWhile_head_false (fun x => isJsWs x) c (t ++ rest) hws
  have hminus : ¬(((c :: t) ++ rest).head? = some ('-')) := by
    simp only [List.cons_append, List.head?_cons, Option.some.injEq]
    exact fun hcm => b36_digit_ne_minus c hcd hcm
  have hsigns : ¬(((c :: t) ++ rest).head? = some ('+') ∨
      ((c :: t) ++ rest).head? = some ('-')) := by
    simp only [List.cons_append, List.head?_cons, Option.some.injEq]
    rintro (hcm | hcm)
    · exact b36_digit_ne_plus c hcd hcm
    · exact b36_digit_ne_minus c hcd hcm
  have htake : ((c :: t) ++ rest).takeWhile (fun x => isB36Digit x) = c :: t :=
    takeWhile_append_head (fun x => isB36Digit x) (c :: t) rest hall hrest
  have hempty : (c :: t).isEmpty = false := rfl
  simp only [jsParseInt36, hdrop, if_neg hminus, if_neg hsigns, htake, hempty,
    Bool.false_eq_true, if_false]
  cases jsDouble ((c :: t).foldl (fun a c => a * 36 + b36DigitVal c) 0) with
  | none => rfl
  | some v => simp

/-! ### Claim C5 -/

/-- C5 (confirmed): encoding the record
`{guildBlessing: "2", unitLevelSumBuff: "3.5", petLevelSum: "piyo"}` (the
third fixed token) with `packOtherBuffs` and decoding the resulting base-36
token with `unpackOtherBuffs` reproduces the record field for field. -/
theorem claim_C5_other_roundtrip :
    unpackOtherBuffs (packOtherBuffs (⟨"2", "3.5", "piyo"⟩ : OtherBuffs)) =
      some (⟨"2", "3.5", "piyo"⟩ : OtherBuffs) := by
  decide

/-! ### Claim C2 -/

/-- C2 counterexample: the claim says an out-of-range `guildBlessing` wraps
modulo 4 (so 4 would encode like 0); in fact `packOtherBuffs` clamps, so 4
encodes like 3 and differently from 0. -/
theorem claim_C2_counterexample :
    packOtherBuffs (⟨"4", "0", "hoge"⟩ : OtherBuffs) =
        packOtherBuffs (⟨"3", "0", "hoge"⟩ : OtherBuffs) ∧
      packOtherBuffs (⟨"4", "0", "hoge"⟩ : OtherBuffs) ≠
        packOtherBuffs (⟨"0", "0", "hoge"⟩ : OtherBuffs) := by
  decide

/-- C2 (corrected): a `guildBlessing` integer outside 0..3 (within 32-bit
range, so that `|0` is the identity) is clamped to the nearest bound by
`Math.max(0, Math.min(3, …))`: values above 3 encode exactly as 3 does and
negative values exactly as 0 does; the subsequent `& 3` mask is a no-op on
the clamped value. -/
theorem claim_C2_amended (other : OtherBuffs) (v : Int)
    (hv : jsNumber other.guildBlessing = some (⟨v, 0⟩ : DecNum)) :
    (3 < v → v < 2147483648 →
      packOtherBuffs other =
        packOtherBuffs ⟨"3", other.unitLevelSumBuff, other.petLevelSum⟩) ∧
    (v < 0 → -2147483648 ≤ v →
      packOtherBuffs other =
        packOtherBuffs ⟨"0", other.unitLevelSumBuff, other.petLevelSum⟩) := by
  have hval : jsToInt32Num (jsNumber other.guildBlessing) = toInt32 v := by
    rw [hv]
    simp [jsToInt32Num, Int.tdiv_one]
  constructor
  · intro h1 h2
    have h32 : toInt32 v = v := by
      simp only [toInt32]
      split <;> omega
    have e1 : (max 0 (min 3 (jsToInt32Num (jsNumber other.guildBlessing)))).toNat % 4 = 3 := by
      rw [hval, h32]
      omega
    have e2 : (max 0 (min 3 (jsToInt32Num (jsNumber (("3") : String))))).toNat % 4 = 3 := by
      decide
    simp only [packOtherBuffs, e1, e2]
  · intro h1 h2
    have h32 : toInt32 v = v := by
      simp only [toInt32]
      split <;> omega
    have e1 : (max 0 (min 3 (jsToInt32Num (jsNumber other.guildBlessing)))).toNat % 4 = 0 := by
      rw [hval, h32]
      omega
    have e2 : (max 0 (min 3 (jsToInt32Num (jsNumber (("0") : String))))).toNat % 4 = 0 := by
      decide
    simp only [packOtherBuffs, e1, e2]

/-- C2 witness: the amended statement at the concrete record with
`guildBlessing` 4. -/
theorem claim_C2_witness :
    packOtherBuffs (⟨"4", "0", "hoge"⟩ : OtherBuffs) =
      packOtherBuffs (⟨"3", "0", "hoge"⟩ : OtherBuffs) :=
  (claim_C2_amended (⟨"4", "0", "hoge"⟩ : OtherBuffs) 4 (by decide)).1
    (by decide) (by decide)

/-! ### Claim C3 -/

/-- C3 counterexample: the fixed `petLevelSum` token list has 3 entries, not
4; the decoded 2-bit index 3 falls outside the table, and the decoder's
fallback branch is reached (for the token `"3"` the pet index is 3 and the
fallback yields the first token). -/
theorem claim_C3_counterexample :
    PET_LEVEL_SUM_VALUES.length = 3 ∧
      PET_LEVEL_SUM_VALUES.get? 3 = none ∧
      unpackOtherBuffs ("3") = some (⟨"0", "0", "hoge"⟩ : OtherBuffs) := by
  decide

/-- C3 (corrected): the fixed `petLevelSum` token list has exactly 3
entries, so a decoded 2-bit pet index of 3 lies outside the list and the
decoder's fallback branch (defaulting to the first token) is reachable;
every decoded record nevertheless carries a `petLevelSum` drawn from the
list, the fallback value being the first token itself. -/
theorem claim_C3_amended :
    PET_LEVEL_SUM_VALUES.length = 3 ∧
      (∀ s rec, unpackOtherBuffs s = some rec →
        rec.petLevelSum ∈ PET_LEVEL_SUM_VALUES) ∧
      unpackOtherBuffs ("3") = some (⟨"0", "0", "hoge"⟩ : OtherBuffs) := by
  refine ⟨rfl, ?_, by decide⟩
  intro s rec h
  obtain ⟨g, u2, p, _, _, hp, hrec⟩ := unpack_shape s rec h
  rw [hrec]
  match p, hp with
  | 0, _ => simp [PET_LEVEL_SUM_VALUES, OTHER_DEFAULTS]
  | 1, _ => simp [PET_LEVEL_SUM_VALUES, OTHER_DEFAULTS]
  | 2, _ => simp [PET_LEVEL_SUM_VALUES, OTHER_DEFAULTS]
  | 3, _ => simp [PET_LEVEL_SUM_VALUES, OTHER_DEFAULTS]

/-- C3 witness: the table-membership part of the amended claim applied to
the decoded record of the token `"3"`. -/
theorem claim_C3_witness :
    (⟨"0", "0", "hoge"⟩ : OtherBuffs).petLevelSum ∈ PET_LEVEL_SUM_VALUES :=
  claim_C3_amended.2.1 ("3") (⟨"0", "0", "hoge"⟩ : OtherBuffs) (by decide)

/-! ### Claim C4 -/

/-- C4 counterexample: the token `"5o"` (doubled value 51) is accepted by
`unpackOtherBuffs` and decodes to a `unitLevelSumBuff` of `"25.5"`, a
half-integer strictly above the claimed upper bound 25.0. -/
theorem claim_C4_counterexample :
    unpackOtherBuffs ("5o") = some (⟨"0", "25.5", "hoge"⟩ : OtherBuffs) ∧
      halfTwice ("25.5") = some 51 ∧ ¬((51 : Int) ≤ 50) := by
  decide

/-- C4 (corrected): for every token accepted by `unpackOtherBuffs` the
decoded `unitLevelSumBuff` string represents a half-integer, but the 6-bit
field only bounds it by 31.5 (doubled value at most 63), not 25.0: the
encoder clamps to 50, the decoder does not. -/
theorem claim_C4_amended (s : String) (rec : OtherBuffs)
    (h : unpackOtherBuffs s = some rec) :
    ∃ t : Int, halfTwice rec.unitLevelSumBuff = some t ∧ 0 ≤ t ∧ t ≤ 63 := by
  obtain ⟨g, u2, p, _, hu2, _, hrec⟩ := unpack_shape s rec h
  refine ⟨(u2 : Int), ?_, by omega, by omega⟩
  rw [hrec]
  exact halfTwice_unitStr u2 hu2

/-- C4 witness: the amended claim applied to the decoded record of the
token `"5o"`. -/
theorem claim_C4_witness :
    ∃ t : Int, halfTwice ((⟨"0", "25.5", "hoge"⟩ : OtherBuffs).unitLevelSumBuff) =
      some t ∧ 0 ≤ t ∧ t ≤ 63 :=
  claim_C4_amended ("5o") (⟨"0", "25.5", "hoge"⟩ : OtherBuffs) (by decide)

/-! ### Claim C10 -/

set_option maxRecDepth 8000 in
/-- C10 counterexample: a leading base-36 digit does not guarantee a
decoded record.  The 200-character token `1` followed by 199 zeros denotes
`36 ^ 199`, past the double range, so `parseInt` gives `Infinity`,
`Number.isFinite` fails and `unpackOtherBuffs` returns no value.
Moreover congruence modulo 1024 of the exact numeral values does not
determine the record: `2 ^ 53 + 1 ≡ 1 (mod 1024)`, but its token parses to
the double `2 ^ 53` (round half to even), whose low bits give the pet
index 0, while the token of 1 gives pet index 1. -/
theorem claim_C10_counterexample :
    (⟨('1') :: List.replicate 199 ('0')⟩ : String).data.head? = some ('1') ∧
    isB36Digit ('1') = true ∧
    unpackOtherBuffs (⟨('1') :: List.replicate 199 ('0')⟩ : String) = none ∧
    (2 ^ 53 + 1) % 1024 = 1 % 1024 ∧
    unpackOtherBuffs (natToB36 (2 ^ 53 + 1)) ≠ unpackOtherBuffs (natToB36 1) := by
  refine ⟨rfl, by decide, by decide, by decide, by decide⟩

/-- C10 (amended): `unpackOtherBuffs` returns no value exactly when
`parseInt` is not finite — an empty digit prefix (`NaN`) or a numeral past
the double range (`Infinity`).  For tokens whose digit-prefix value stays
below 2^53 (exactly representable): a leading base-36 digit guarantees a
well-formed record; a digit prefix with a non-digit trailer decodes like
the bare prefix (this needs no bound); values equal modulo 1024 decode
identically, so the distinct tokens of 1024 and 0 decode to the same
record. -/
theorem claim_C10_amended :
    (∀ s : String, ∀ c, s.data.head? = some c → isB36Digit c = true →
        (s.data.takeWhile (fun x => isB36Digit x)).foldl
          (fun a c => a * 36 + b36DigitVal c) 0 < 2 ^ 53 →
        ∃ rec, unpackOtherBuffs s = some rec) ∧
    (∀ ds rest : List Char, ds ≠ [] → (∀ c ∈ ds, isB36Digit c = true) →
        (∀ c, rest.head? = some c → isB36Digit c = false) →
        unpackOtherBuffs ⟨ds ++ rest⟩ = unpackOtherBuffs ⟨ds⟩) ∧
    (∀ a b : Nat, a < 2 ^ 53 → b < 2 ^ 53 → a % 1024 = b % 1024 →
        unpackOtherBuffs (natToB36 a) = unpackOtherBuffs (natToB36 b)) ∧
    (natToB36 1024 ≠ natToB36 0 ∧
        unpackOtherBuffs (natToB36 1024) = unpackOtherBuffs (natToB36 0)) := by
  refine ⟨?_, ?_, ?_, by decide⟩
  · intro s c hhead hcd h53
    obtain ⟨data⟩ := s
    obtain ⟨t, hst⟩ : ∃ t, data = c :: t := by
      cases hd : data with
      | nil => rw [hd] at hhead; exact absurd hhead (by simp)
      | cons x l =>
        rw [hd] at hhead
        simp only [List.head?_cons, Option.some.injEq] at hhead
        exact ⟨l, by rw [hhead]⟩
    subst hst
    have hdata : (⟨c :: t⟩ : String).data = c :: t := rfl
    rw [hdata, List.takeWhile_cons_of_pos hcd] at h53
    have hsplit : c :: t =
        (c :: t.takeWhile (fun x => isB36Digit x)) ++ t.dropWhile (fun x => isB36Digit x) := by
      simp [List.takeWhile_append_dropWhile]
    have hall : ∀ x ∈ c :: t.takeWhile (fun x => isB36Digit x), isB36Digit x = true := by
      intro x hx
      rcases List.mem_cons.mp hx with hx | hx
      · rw [hx]; exact hcd
      · exact List.mem_takeWhile_imp hx
    have hrest : ∀ x, (t.dropWhile (fun x => isB36Digit x)).head? = some x →
        isB36Digit x = false := by
      intro x hx
      have h := List.head?_dropWhile_not (fun x => isB36Digit x) t
      rw [hx] at h
      exact h
    have hparse := jsParseInt36_digit_prefix
      (c :: t.takeWhile (fun x => isB36Digit x))
      (t.dropWhile (fun x => isB36Digit x)) (by simp) hall hrest
    rw [← hsplit] at hparse
    have hparse2 : jsParseInt36 ⟨c :: t⟩ =
        some (((c :: t.takeWhile (fun x => isB36Digit x)).foldl
          (fun a c => a * 36 + b36DigitVal c) 0 : Nat) : Int) := by
      rw [hparse, jsDouble_small _ h53]
    rw [← Option.isSome_iff_exists]
    simp only [unpackOtherBuffs, hparse2]
    rfl
  · intro ds rest hne hall hrest
    have h1 := jsParseInt36_digit_prefix ds rest hne hall hrest
    have h2 := jsParseInt36_digit_prefix ds [] hne hall (by intro c h; cases h)
    rw [List.append_nil] at h2
    simp only [unpackOtherBuffs, h1, h2]
  · intro a b ha hb hab
    simp only [unpackOtherBuffs, jsParseInt36_natToB36 a ha, jsParseInt36_natToB36 b hb]
    have e1 : ((toInt32 ((a : Int)) / 256) % 4).toNat =
        ((toInt32 ((b : Int)) / 256) % 4).toNat := by
      simp only [toInt32]
      split <;> split <;> omega
    have e2 : ((toInt32 ((a : Int)) / 4) % 64).toNat =
        ((toInt32 ((b : Int)) / 4) % 64).toNat := by
      simp only [toInt32]
      split <;> split <;> omega
    have e3 : ((toInt32 ((a : Int))) % 4).toNat =
        ((toInt32 ((b : Int))) % 4).toNat := by
      simp only [toInt32]
      split <;> split <;> omega
    rw [e1, e2, e3]

/-- C10 witness: the prefix part of the amended claim applied to the
concrete token `"f2!!"` (trailing `"!!"` ignored), and the mask part
applied to the tokens of 1025 and 1. -/
theorem claim_C10_witness :
    unpackOtherBuffs (⟨['f', '2'] ++ ['!', '!']⟩ : String) =
      unpackOtherBuffs (⟨['f', '2']⟩ : String) ∧
    unpackOtherBuffs (natToB36 1025) = unpackOtherBuffs (natToB36 1) :=
  ⟨claim_C10_amended.2.1 (['f', '2']) (['!', '!'])
      (by decide) (by decide) (by decide),
   claim_C10_amended.2.2.1 1025 1 (by norm_num) (by norm_num) (by norm_num)⟩

/-! ### Base64 (`btoa` / `atob`) and the base64url helpers of `utils.js` -/

/-- The standard base64 alphabet. -/
def b64Alphabet : List Char :=
  ("ABCDEFGHIJKLMNOPQRSTUVWXYZabcdefghijklmnopqrstuvwxyz0123456789+/").data

/-- Character for a 6-bit group (arguments are always below 64). -/
def b64EncChar (w : Nat) : Char := b64Alphabet.getD w ('?')

/-- First index of a character in a list. -/
def charIdx (c : Char) : List Char → Option Nat
  | [] => none
  | x :: t => if x = c then some 0 else (charIdx c t).map (fun i => i + 1)

/-- 6-bit value of a base64 character (`none` for characters outside the
alphabet, including `=`). -/
def b64DecChar (c : Char) : Option Nat := charIdx c b64Alphabet

/-- `btoa` output characters: standard base64 with padding, 3 input bytes
per 4 output characters. -/
def btoaChars : List Nat → List Char
  | b0 :: b1 :: b2 :: rest =>
    b64EncChar (b0 >>> 2) ::
      b64EncChar (((b0 &&& 3) <<< 4) ||| (b1 >>> 4)) ::
      b64EncChar (((b1 &&& 15) <<< 2) ||| (b2 >>> 6)) ::
      b64EncChar (b2 &&& 63) :: btoaChars rest
  | [b0, b1] =>
    [b64EncChar (b0 >>> 2), b64EncChar (((b0 &&& 3) <<< 4) ||| (b1 >>> 4)),
      b64EncChar ((b1 &&& 15) <<< 2), ('=')]
  | [b0] =>
    [b64EncChar (b0 >>> 2), b64EncChar ((b0 &&& 3) <<< 4), ('='), ('=')]
  | [] => []

/-- ASCII whitespace removed by forgiving-base64 decoding (`atob`). -/
def isB64Ws (c : Char) : Bool :=
  c.toNat = 9 || c.toNat = 10 || c.toNat = 12 || c.toNat = 13 || c.toNat = 32

/-- Remove at most two trailing `=` characters (forgiving-base64 step 2). -/
def stripTrailingEqs (cs : List Char) : List Char :=
  let r := cs.reverse
  let r1 := if r.head? = some ('=') then r.tail else r
  let r2 := if r1.head? = some ('=') then r1.tail else r1
  r2.reverse

/-- Map base64 characters to their 6-bit values, failing on any character
outside the alphabet. -/
def decodeB64Chars : List Char → Option (List Nat)
  | [] => some []
  | c :: t =>
    match b64DecChar c, decodeB64Chars t with
    | some v, some r => some (v :: r)
    | _, _ => none

/-- Reassemble bytes from 6-bit groups; a trailing group of 2 or 3
characters contributes 1 or 2 bytes, leftover bits being discarded
(forgiving-base64). -/
def sixbitsToBytes : List Nat → List Nat
  | w0 :: w1 :: w2 :: w3 :: rest =>
    ((w0 <<< 2) ||| (w1 >>> 4)) :: (((w1 &&& 15) <<< 4) ||| (w2 >>> 2)) ::
      (((w2 &&& 3) <<< 6) ||| w3) :: sixbitsToBytes rest
  | [w0, w1] => [(w0 <<< 2) ||| (w1 >>> 4)]
  | [w0, w1, w2] => [(w0 <<< 2) ||| (w1 >>> 4), ((w1 &&& 15) <<< 4) ||| (w2 >>> 2)]
  | _ => []

/-- `atob`: WHATWG forgiving-base64 decode (remove ASCII whitespace, strip
at most two trailing `=` when the length is a multiple of 4, reject a
length of 1 mod 4 and any character outside the alphabet).  `none` models
the thrown `InvalidCharacterError`. -/
def atob (s : String) : Option (List Nat) :=
  let cs := s.data.filter (fun c => !(isB64Ws c))
  let cs1 := if cs.length % 4 = 0 then stripTrailingEqs cs else cs
  if cs1.length % 4 = 1 then none
  else (decodeB64Chars cs1).map sixbitsToBytes

/-- The `+`→`-`, `/`→`_` substitution of `bytesToB64Url`. -/
def substToUrl (c : Char) : Char :=
  if c = ('+') then ('-') else if c = ('/') then ('_') else c

/-- The `-`→`+`, `_`→`/` substitution of `b64UrlToBytes`. -/
def substFromUrl (c : Char) : Char :=
  if c = ('-') then ('+') else if c = ('_') then ('/') else c

/-- The `replace(/=+$/g, "")` of `bytesToB64Url`. -/
def dropTrailingEqs (cs : List Char) : List Char :=
  ((cs.reverse).dropWhile (fun c => c = ('='))).reverse

/-- `bytesToB64Url` of `utils.js` (text in `party_ui.js`): `btoa`, then map
`+`→`-`, `/`→`_` and strip all trailing `=`. -/
def bytesToB64Url (bytes : List Nat) : String :=
  ⟨dropTrailingEqs ((btoaChars bytes).map substToUrl)⟩

/-- `b64UrlToBytes` of `utils.js`: map `-`→`+`, `_`→`/`, pad with `=` to a
multiple of 4, then `atob` (whose failure propagates). -/
def b64UrlToBytes (s : String) : Option (List Nat) :=
  let cs := s.data.map substFromUrl
  let padded := cs ++ List.replicate ((4 - cs.length % 4) % 4) ('=')
  atob ⟨padded⟩

/-! ### The relic-level codec of `url_state.js` -/

/-- `RELIC_KEYS` of `dom.js`: the twelve relic select ids, order fixed. -/
def RELIC_KEYS : List String :=
  ["moneyGunLv", "powerPotionLv", "fairyBowLv", "greatSwordLv", "secretBookLv",
    "bambaDollLv", "batLv", "wizardHatLv", "bombLv", "oldBookLv",
    "sageYogurtLv", "magicGauntletLv"]

/-- `clampRelicLv` on an integer input: clamp to [1, 11] (the `Number`
conversion and `Math.trunc` are identities on the integers modelled here;
the non-finite branch cannot fire). -/
def clampRelicLv (v : Int) : Int := max 1 (min 11 v)

/-- `packRelicLevels`: for slot i the 4-bit field `(clamp(level) - 1) & 15`
is or-ed in at bit `(11 - i) * 4` of a 48-bit integer (`levels[i] ?? 1`
modelled by `getD`), which is split into 6 bytes, most significant first,
and base64url-encoded. -/
def packRelicLevels (levels : List Int) : String :=
  let n : Nat := (List.range 12).foldl
    (fun n i =>
      n ||| ((((clampRelicLv (levels.getD i 1)) - 1).toNat &&& 15) <<< ((11 - i) * 4)))
    0
  let bytes : List Nat := (List.range 6).map (fun i => (n >>> ((5 - i) * 8)) &&& 255)
  bytesToB64Url bytes

/-- `unpackRelicLevels`: base64url-decode (`error` models a propagating
`atob` exception), require exactly 6 bytes (`ok none` models returning
null), rebuild the 48-bit integer big-endian and emit
`clampRelicLv(field + 1)` for each 4-bit field. -/
def unpackRelicLevels (rStr : String) : Except Unit (Option (List Int)) :=
  match b64UrlToBytes rStr with
  | none => Except.error ()
  | some bytes =>
    if bytes.length ≠ 6 then Except.ok none
    else
      let n : Nat := bytes.foldl (fun n b => (n <<< 8) ||| b) 0
      Except.ok (some ((List.range 12).map
        (fun i => clampRelicLv (((((n >>> ((11 - i) * 4)) &&& 15) + 1 : Nat) : Int)))))

/-- `parseRelicParam`: a falsy argument (`null` or the empty string) gives
null; a one-character token is parsed in base 36 and accepted only when
finite and in 1..11, filling all `RELIC_KEYS.length` slots with that value;
any other token goes through `unpackRelicLevels` inside `try`, a thrown
exception giving null. -/
def parseRelicParam (r : Option String) : Option (List Int) :=
  match r with
  | none => none
  | some s =>
    if s = "" then none
    else if s.length = 1 then
      match jsParseInt36 s with
      | some lv =>
        if 1 ≤ lv ∧ lv ≤ 11 then some (List.replicate RELIC_KEYS.length lv) else none
      | none => none
    else
      match unpackRelicLevels s with
      | Except.error _ => none
      | Except.ok v => v

/-! ### Bit-arithmetic toolkit -/

theorem and3_eq (x : Nat) : x &&& 3 = x % 4 := by
  have h := Nat.and_pow_two_sub_one_eq_mod x 2
  norm_num at h
  exact h

theorem and15_eq (x : Nat) : x &&& 15 = x % 16 := by
  have h := Nat.and_pow_two_sub_one_eq_mod x 4
  norm_num at h
  exact h

theorem and63_eq (x : Nat) : x &&& 63 = x % 64 := by
  have h := Nat.and_pow_two_sub_one_eq_mod x 6
  norm_num at h
  exact h

theorem and255_eq (x : Nat) : x &&& 255 = x % 256 := by
  have h := Nat.and_pow_two_sub_one_eq_mod x 8
  norm_num at h
  exact h

/-- Bitwise or of a shifted value with a small remainder is addition. -/
theorem or_eq_add_pow (k x y : Nat) (hy : y < 2 ^ k) :
    (x * 2 ^ k) ||| y = x * 2 ^ k + y := by
  calc x * 2 ^ k ||| y = 2 ^ k * x ||| y := by rw [Nat.mul_comm]
    _ = 2 ^ k * x + y := (Nat.mul_add_lt_is_or hy x).symm
    _ = x * 2 ^ k + y := by rw [Nat.mul_comm]

/-- A 4-bit value or-ed into a field of zeros is addition. -/
theorem or_shift16 (x v k : Nat) (hv : v < 16) (hx : x % (2 ^ (k + 4)) = 0) :
    x ||| (v <<< k) = x + v * 2 ^ k := by
  obtain ⟨m, hm⟩ : ∃ m, x = 2 ^ (k + 4) * m :=
    ⟨x / 2 ^ (k + 4), (Nat.mul_div_cancel' (Nat.dvd_of_mod_eq_zero hx)).symm⟩
  subst hm
  rw [Nat.shiftLeft_eq]
  have hpos : 0 < 2 ^ k := Nat.pos_pow_of_pos k (by norm_num)
  have hb : v * 2 ^ k < 2 ^ (k + 4) := by
    calc v * 2 ^ k < 16 * 2 ^ k := Nat.mul_lt_mul_of_pos_right hv hpos
      _ = 2 ^ (k + 4) := by rw [Nat.pow_add]; ring
  rw [← Nat.mul_add_lt_is_or hb m]

/-! ### Base64 alphabet facts (finite checks) -/

theorem b64DecChar_enc : ∀ w, w < 64 → b64DecChar (b64EncChar w) = some w := by decide

theorem b64EncChar_not_ws : ∀ w, w < 64 → (!(isB64Ws (b64EncChar w))) = true := by decide

theorem substFromUrl_substToUrl : ∀ w, w < 64 →
    substFromUrl (substToUrl (b64EncChar w)) = b64EncChar w := by decide

theorem substToUrl_enc_ne_eq : ∀ w, w < 64 → ¬(substToUrl (b64EncChar w) = ('=')) := by decide

theorem b64EncChar_ne_eq : ∀ w, w < 64 → ¬(b64EncChar w = ('=')) := by decide

/-! ### Base64 list-level helpers -/

/-- Decoding the encodings of 6-bit values recovers the values. -/
theorem decodeB64Chars_map_enc : ∀ ws : List Nat, (∀ w ∈ ws, w < 64) →
    decodeB64Chars (ws.map b64EncChar) = some ws := by
  intro ws
  induction ws with
  | nil => intro _; rfl
  | cons w t ih =>
    intro h
    have hw : w < 64 := h w (by simp)
    have ht := ih (fun x hx => h x (by simp [hx]))
    simp only [List.map_cons, decodeB64Chars, b64DecChar_enc w hw, ht]

/-- `dropTrailingEqs` is the identity when the last character is not `=`. -/
theorem dropTrailingEqs_id (l : List Char) (h : ∀ c, l.getLast? = some c → c ≠ ('=')) :
    dropTrailingEqs l = l := by
  unfold dropTrailingEqs
  cases hr : l.reverse with
  | nil =>
    have hl : l = [] := by simpa using congrArg List.reverse hr
    subst hl
    rfl
  | cons c t =>
    have hc : l.getLast? = some c := by
      rw [← List.head?_reverse, hr]
      rfl
    have hcne : c ≠ ('=') := h c hc
    have hstep : List.dropWhile (fun x => decide (x = ('='))) (c :: t) = c :: t :=
      dropWhile_head_false (fun x => decide (x = ('='))) c t (by simp [hcne])
    rw [hstep, ← hr, List.reverse_reverse]

/-- `stripTrailingEqs` is the identity when the last character is not `=`. -/
theorem stripTrailingEqs_id (l : List Char) (h : ∀ c, l.getLast? = some c → c ≠ ('=')) :
    stripTrailingEqs l = l := by
  simp only [stripTrailingEqs]
  cases hr : l.reverse with
  | nil =>
    have hl : l = [] := by simpa using congrArg List.reverse hr
    subst hl
    rfl
  | cons c t =>
    have hc : l.getLast? = some c := by
      rw [← List.head?_reverse, hr]
      rfl
    have hne : ¬((c :: t).head? = some ('=')) := by
      simp only [List.head?_cons, Option.some.injEq]
      exact h c hc
    rw [if_neg hne, if_neg hne, ← hr, List.reverse_reverse]

/-- Reassembling the four 6-bit groups of three bytes recovers the bytes. -/
theorem sixbits_group (a b c : Nat) (ha : a < 256) (hb : b < 256) (hc : c < 256)
    (rest : List Nat) :
    sixbitsToBytes ((a >>> 2) :: (((a &&& 3) <<< 4) ||| (b >>> 4)) ::
        (((b &&& 15) <<< 2) ||| (c >>> 6)) :: (c &&& 63) :: rest) =
      a :: b :: c :: sixbitsToBytes rest := by
  have e1 : ((a &&& 3) <<< 4) ||| (b >>> 4) = (a % 4) * 2 ^ 4 + b / 2 ^ 4 := by
    rw [and3_eq, Nat.shiftLeft_eq, Nat.shiftRight_eq_div_pow]
    exact or_eq_add_pow 4 (a % 4) (b / 2 ^ 4) (by omega)
  have e2 : ((b &&& 15) <<< 2) ||| (c >>> 6) = (b % 16) * 2 ^ 2 + c / 2 ^ 6 := by
    rw [and15_eq, Nat.shiftLeft_eq, Nat.shiftRight_eq_div_pow]
    exact or_eq_add_pow 2 (b % 16) (c / 2 ^ 6) (by omega)
  show (((a >>> 2) <<< 2) ||| ((((a &&& 3) <<< 4) ||| (b >>> 4)) >>> 4)) ::
      ((((((a &&& 3) <<< 4) ||| (b >>> 4)) &&& 15) <<< 4) |||
        ((((b &&& 15) <<< 2) ||| (c >>> 6)) >>> 2)) ::
      ((((((b &&& 15) <<< 2) ||| (c >>> 6)) &&& 3) <<< 6) ||| (c &&& 63)) ::
      sixbitsToBytes rest = a :: b :: c :: sixbitsToBytes rest
  rw [e1, e2, and63_eq, and3_eq, and15_eq]
  simp only [Nat.shiftLeft_eq, Nat.shiftRight_eq_div_pow]
  have g1 : (a / 2 ^ 2) * 2 ^ 2 ||| ((a % 4) * 2 ^ 4 + b / 2 ^ 4) / 2 ^ 4 = a := by
    rw [or_eq_add_pow 2 (a / 2 ^ 2) _ (by omega)]
    omega
  have g2 : (((a % 4) * 2 ^ 4 + b / 2 ^ 4) % 16) * 2 ^ 4 |||
      ((b % 16) * 2 ^ 2 + c / 2 ^ 6) / 2 ^ 2 = b := by
    rw [or_eq_add_pow 4 _ _ (by omega)]
    omega
  have g3 : (((b % 16) * 2 ^ 2 + c / 2 ^ 6) % 4) * 2 ^ 6 ||| c % 64 = c := by
    rw [or_eq_add_pow 6 _ _ (by omega)]
    omega
  rw [g1, g2, g3]

/-- `bytesToB64Url` on bytes whose `btoa` form is padding-free is the plain
substituted alphabet string. -/
theorem bytesToB64Url_eq_of_btoa (bytes : List Nat) (ws : List Nat)
    (hb : btoaChars bytes = ws.map b64EncChar) (h64 : ∀ w ∈ ws, w < 64) :
    bytesToB64Url bytes = ⟨ws.map (fun w => substToUrl (b64EncChar w))⟩ := by
  unfold bytesToB64Url
  rw [hb, List.map_map]
  have hcomp : List.map (substToUrl ∘ b64EncChar) ws =
      List.map (fun w => substToUrl (b64EncChar w)) ws := rfl
  rw [hcomp]
  congr 1
  apply dropTrailingEqs_id
  intro c hc
  rw [List.getLast?_map] at hc
  cases hlast : ws.getLast? with
  | none => rw [hlast] at hc; cases hc
  | some w =>
    rw [hlast] at hc
    have hc2 : substToUrl (b64EncChar w) = c := by simpa using hc
    have hw : w < 64 := h64 w (List.mem_of_getLast?_eq_some hlast)
    rw [← hc2]
    exact substToUrl_enc_ne_eq w hw

/-- Data of an explicitly constructed string. -/
theorem data_mk (l : List Char) : (⟨l⟩ : String).data = l := rfl

/-- `atob` on a string of alphabet characters whose length is a multiple of
four decodes all 6-bit groups. -/
theorem atob_encs (ws : List Nat) (h64 : ∀ w ∈ ws, w < 64)
    (hmod : ws.length % 4 = 0) :
    atob (⟨ws.map b64EncChar⟩ : String) = some (sixbitsToBytes ws) := by
  have hfilter : (ws.map b64EncChar).filter (fun c => !(isB64Ws c)) = ws.map b64EncChar := by
    rw [List.filter_eq_self]
    intro c hcmem
    obtain ⟨w, hw, rfl⟩ := List.mem_map.mp hcmem
    exact b64EncChar_not_ws w (h64 w hw)
  have hstrip : stripTrailingEqs (ws.map b64EncChar) = ws.map b64EncChar := by
    apply stripTrailingEqs_id
    intro c hc
    rw [List.getLast?_map] at hc
    cases hlast : ws.getLast? with
    | none => rw [hlast] at hc; cases hc
    | some w =>
      rw [hlast] at hc
      have hc2 : b64EncChar w = c := by simpa using hc
      rw [← hc2]
      exact b64EncChar_ne_eq w (h64 w (List.mem_of_getLast?_eq_some hlast))
  have hm2 : (ws.map b64EncChar).length % 4 = 0 := by
    rw [List.length_map]
    exact hmod
  have hm3 : ¬((ws.map b64EncChar).length % 4 = 1) := by
    rw [List.length_map]
    omega
  simp only [atob, data_mk, hfilter, if_pos hm2, hstrip, if_neg hm3,
    decodeB64Chars_map_enc ws h64]
  rfl

/-- Decoding a padding-free base64url rendering of 6-bit groups recovers the
byte reassembly of the groups. -/
theorem b64UrlToBytes_encs (ws : List Nat) (h64 : ∀ w ∈ ws, w < 64)
    (hmod : ws.length % 4 = 0) :
    b64UrlToBytes (⟨ws.map (fun w => substToUrl (b64EncChar w))⟩ : String) =
      some (sixbitsToBytes ws) := by
  have hcs : (ws.map (fun w => substToUrl (b64EncChar w))).map substFromUrl =
      ws.map b64EncChar := by
    rw [List.map_map]
    apply List.map_congr_left
    intro w hw
    exact substFromUrl_substToUrl w (h64 w hw)
  simp only [b64UrlToBytes, data_mk, hcs, List.length_map]
  rw [show (4 - ws.length % 4) % 4 = 0 from by omega]
  rw [List.replicate_zero, List.append_nil]
  exact atob_encs ws h64 hmod


/-- Folding six bytes big-endian (`(n << 8) | b`) yields their weighted sum. -/
theorem byteFold_eq (c0 c1 c2 c3 c4 c5 : Nat) (h0 : c0 < 256) (h1 : c1 < 256)
    (h2 : c2 < 256) (h3 : c3 < 256) (h4 : c4 < 256) (h5 : c5 < 256) :
    List.foldl (fun n b => (n <<< 8) ||| b) 0 [c0, c1, c2, c3, c4, c5] =
      c0 * 2 ^ 40 + c1 * 2 ^ 32 + c2 * 2 ^ 24 + c3 * 2 ^ 16 + c4 * 2 ^ 8 + c5 := by
  simp only [List.foldl_cons, List.foldl_nil, Nat.shiftLeft_eq]
  rw [or_eq_add_pow 8 _ _ h0]
  rw [or_eq_add_pow 8 _ _ h1]
  rw [or_eq_add_pow 8 _ _ h2]
  rw [or_eq_add_pow 8 _ _ h3]
  rw [or_eq_add_pow 8 _ _ h4]
  rw [or_eq_add_pow 8 _ _ h5]
  omega

/-- Base64url round trip for an arbitrary 6-byte group, together with the
shape of the token (8 characters, so neither empty nor of length 1). -/
theorem six_byte_roundtrip (c0 c1 c2 c3 c4 c5 : Nat) (h0 : c0 < 256) (h1 : c1 < 256)
    (h2 : c2 < 256) (h3 : c3 < 256) (h4 : c4 < 256) (h5 : c5 < 256) :
    b64UrlToBytes (bytesToB64Url [c0, c1, c2, c3, c4, c5]) =
        some [c0, c1, c2, c3, c4, c5] ∧
      (bytesToB64Url [c0, c1, c2, c3, c4, c5]).length = 8 ∧
      ¬(bytesToB64Url [c0, c1, c2, c3, c4, c5] = "") := by
  have h64 : ∀ w ∈ [c0 >>> 2, ((c0 &&& 3) <<< 4) ||| (c1 >>> 4),
      ((c1 &&& 15) <<< 2) ||| (c2 >>> 6), c2 &&& 63,
      c3 >>> 2, ((c3 &&& 3) <<< 4) ||| (c4 >>> 4),
      ((c4 &&& 15) <<< 2) ||| (c5 >>> 6), c5 &&& 63], w < 64 := by
    intro w hw
    simp only [List.mem_cons, List.not_mem_nil, or_false] at hw
    rcases hw with rfl | rfl | rfl | rfl | rfl | rfl | rfl | rfl
    · simp only [Nat.shiftRight_eq_div_pow]
      omega
    · simp only [Nat.shiftRight_eq_div_pow, Nat.shiftLeft_eq, and3_eq]
      exact @Nat.or_lt_two_pow _ _ 6 (by omega) (by omega)
    · simp only [Nat.shiftRight_eq_div_pow, Nat.shiftLeft_eq, and15_eq]
      exact @Nat.or_lt_two_pow _ _ 6 (by omega) (by omega)
    · simp only [and63_eq]
      omega
    · simp only [Nat.shiftRight_eq_div_pow]
      omega
    · simp only [Nat.shiftRight_eq_div_pow, Nat.shiftLeft_eq, and3_eq]
      exact @Nat.or_lt_two_pow _ _ 6 (by omega) (by omega)
    · simp only [Nat.shiftRight_eq_div_pow, Nat.shiftLeft_eq, and15_eq]
      exact @Nat.or_lt_two_pow _ _ 6 (by omega) (by omega)
    · simp only [and63_eq]
      omega
  have hpack : bytesToB64Url [c0, c1, c2, c3, c4, c5] =
      (⟨List.map (fun w => substToUrl (b64EncChar w)) [c0 >>> 2,
        ((c0 &&& 3) <<< 4) ||| (c1 >>> 4), ((c1 &&& 15) <<< 2) ||| (c2 >>> 6), c2 &&& 63,
        c3 >>> 2, ((c3 &&& 3) <<< 4) ||| (c4 >>> 4),
        ((c4 &&& 15) <<< 2) ||| (c5 >>> 6), c5 &&& 63]⟩ : String) :=
    bytesToB64Url_eq_of_btoa [c0, c1, c2, c3, c4, c5] _ rfl h64
  have hsix : sixbitsToBytes [c0 >>> 2, ((c0 &&& 3) <<< 4) ||| (c1 >>> 4),
      ((c1 &&& 15) <<< 2) ||| (c2 >>> 6), c2 &&& 63,
      c3 >>> 2, ((c3 &&& 3) <<< 4) ||| (c4 >>> 4),
      ((c4 &&& 15) <<< 2) ||| (c5 >>> 6), c5 &&& 63] = [c0, c1, c2, c3, c4, c5] := by
    rw [show ([c0 >>> 2, ((c0 &&& 3) <<< 4) ||| (c1 >>> 4),
        ((c1 &&& 15) <<< 2) ||| (c2 >>> 6), c2 &&& 63,
        c3 >>> 2, ((c3 &&& 3) <<< 4) ||| (c4 >>> 4),
        ((c4 &&& 15) <<< 2) ||| (c5 >>> 6), c5 &&& 63] : List Nat) =
      (c0 >>> 2) :: (((c0 &&& 3) <<< 4) ||| (c1 >>> 4)) ::
        (((c1 &&& 15) <<< 2) ||| (c2 >>> 6)) :: (c2 &&& 63) ::
        ((c3 >>> 2) :: (((c3 &&& 3) <<< 4) ||| (c4 >>> 4)) ::
          (((c4 &&& 15) <<< 2) ||| (c5 >>> 6)) :: (c5 &&& 63) :: []) from rfl]
    rw [sixbits_group c0 c1 c2 h0 h1 h2, sixbits_group c3 c4 c5 h3 h4 h5]
    rfl
  have hdec : b64UrlToBytes (bytesToB64Url [c0, c1, c2, c3, c4, c5]) =
      some [c0, c1, c2, c3, c4, c5] := by
    rw [hpack, b64UrlToBytes_encs _ h64 (by simp), hsix]
  refine ⟨hdec, ?_, ?_⟩
  · rw [hpack]
    show (List.map (fun w => substToUrl (b64EncChar w)) [c0 >>> 2,
      ((c0 &&& 3) <<< 4) ||| (c1 >>> 4), ((c1 &&& 15) <<< 2) ||| (c2 >>> 6), c2 &&& 63,
      c3 >>> 2, ((c3 &&& 3) <<< 4) ||| (c4 >>> 4),
      ((c4 &&& 15) <<< 2) ||| (c5 >>> 6), c5 &&& 63]).length = 8
    simp
  · intro hcontra
    rw [hpack] at hcontra
    have hd := congrArg String.data hcontra
    simp at hd

set_option maxHeartbeats 1000000 in
/-- Decoding the base64url token of the six big-endian bytes of a 48-bit
integer recovers the clamped 4-bit fields; the token has 8 characters. -/
theorem relic_token_decode (N : Nat) (hN : N < 2 ^ 48) :
    unpackRelicLevels (bytesToB64Url [(N >>> 40) &&& 255, (N >>> 32) &&& 255, (N >>> 24) &&& 255, (N >>> 16) &&& 255, (N >>> 8) &&& 255, (N >>> 0) &&& 255]) =
        Except.ok (some [clampRelicLv (((((N >>> 44) &&& 15) + 1 : Nat) : Int)), clampRelicLv (((((N >>> 40) &&& 15) + 1 : Nat) : Int)), clampRelicLv (((((N >>> 36) &&& 15) + 1 : Nat) : Int)), clampRelicLv (((((N >>> 32) &&& 15) + 1 : Nat) : Int)), clampRelicLv (((((N >>> 28) &&& 15) + 1 : Nat) : Int)), clampRelicLv (((((N >>> 24) &&& 15) + 1 : Nat) : Int)), clampRelicLv (((((N >>> 20) &&& 15) + 1 : Nat) : Int)), clampRelicLv (((((N >>> 16) &&& 15) + 1 : Nat) : Int)), clampRelicLv (((((N >>> 12) &&& 15) + 1 : Nat) : Int)), clampRelicLv (((((N >>> 8) &&& 15) + 1 : Nat) : Int)), clampRelicLv (((((N >>> 4) &&& 15) + 1 : Nat) : Int)), clampRelicLv (((((N >>> 0) &&& 15) + 1 : Nat) : Int))]) ∧
      (bytesToB64Url [(N >>> 40) &&& 255, (N >>> 32) &&& 255, (N >>> 24) &&& 255, (N >>> 16) &&& 255, (N >>> 8) &&& 255, (N >>> 0) &&& 255]).length = 8 ∧
      ¬(bytesToB64Url [(N >>> 40) &&& 255, (N >>> 32) &&& 255, (N >>> 24) &&& 255, (N >>> 16) &&& 255, (N >>> 8) &&& 255, (N >>> 0) &&& 255] = "") := by
  have hcb0 : ((N >>> 40) &&& 255) < 256 := by
    rw [and255_eq]
    omega
  have hcb1 : ((N >>> 32) &&& 255) < 256 := by
    rw [and255_eq]
    omega
  have hcb2 : ((N >>> 24) &&& 255) < 256 := by
    rw [and255_eq]
    omega
  have hcb3 : ((N >>> 16) &&& 255) < 256 := by
    rw [and255_eq]
    omega
  have hcb4 : ((N >>> 8) &&& 255) < 256 := by
    rw [and255_eq]
    omega
  have hcb5 : ((N >>> 0) &&& 255) < 256 := by
    rw [and255_eq]
    omega
  obtain ⟨hdec, hlen8, hnemp⟩ :=
    six_byte_roundtrip _ _ _ _ _ _ hcb0 hcb1 hcb2 hcb3 hcb4 hcb5
  refine ⟨?_, hlen8, hnemp⟩
  simp only [unpackRelicLevels, hdec]
  rw [if_neg (by simp)]
  rw [byteFold_eq _ _ _ _ _ _ hcb0 hcb1 hcb2 hcb3 hcb4 hcb5]
  have hSC : ((N >>> 40) &&& 255) * 2 ^ 40 + ((N >>> 32) &&& 255) * 2 ^ 32 + ((N >>> 24) &&& 255) * 2 ^ 24 + ((N >>> 16) &&& 255) * 2 ^ 16 + ((N >>> 8) &&& 255) * 2 ^ 8 + ((N >>> 0) &&& 255) = N := by
    simp only [Nat.shiftRight_eq_div_pow, and255_eq]
    omega
  rw [hSC]
  rw [show List.range 12 = [0, 1, 2, 3, 4, 5, 6, 7, 8, 9, 10, 11] from rfl]
  simp only [List.map_cons, List.map_nil]

set_option maxHeartbeats 1000000 in
/-- Packing twelve in-range levels and decoding the token through
`parseRelicParam` reproduces the levels exactly (bit-packing path). -/
theorem packRelic_roundtrip (l0 l1 l2 l3 l4 l5 l6 l7 l8 l9 l10 l11 : Int)
    (h0 : 1 ≤ l0 ∧ l0 ≤ 11) (h1 : 1 ≤ l1 ∧ l1 ≤ 11) (h2 : 1 ≤ l2 ∧ l2 ≤ 11)
    (h3 : 1 ≤ l3 ∧ l3 ≤ 11) (h4 : 1 ≤ l4 ∧ l4 ≤ 11) (h5 : 1 ≤ l5 ∧ l5 ≤ 11)
    (h6 : 1 ≤ l6 ∧ l6 ≤ 11) (h7 : 1 ≤ l7 ∧ l7 ≤ 11) (h8 : 1 ≤ l8 ∧ l8 ≤ 11)
    (h9 : 1 ≤ l9 ∧ l9 ≤ 11) (h10 : 1 ≤ l10 ∧ l10 ≤ 11) (h11 : 1 ≤ l11 ∧ l11 ≤ 11) :
    parseRelicParam (some (packRelicLevels
        [l0, l1, l2, l3, l4, l5, l6, l7, l8, l9, l10, l11])) =
      some [l0, l1, l2, l3, l4, l5, l6, l7, l8, l9, l10, l11] := by
  obtain ⟨m0, rfl, hb0⟩ : ∃ m : Nat, l0 = ((m : Int)) + 1 ∧ m ≤ 10 :=
    ⟨(l0 - 1).toNat, by omega, by omega⟩
  obtain ⟨m1, rfl, hb1⟩ : ∃ m : Nat, l1 = ((m : Int)) + 1 ∧ m ≤ 10 :=
    ⟨(l1 - 1).toNat, by omega, by omega⟩
  obtain ⟨m2, rfl, hb2⟩ : ∃ m : Nat, l2 = ((m : Int)) + 1 ∧ m ≤ 10 :=
    ⟨(l2 - 1).toNat, by omega, by omega⟩
  obtain ⟨m3, rfl, hb3⟩ : ∃ m : Nat, l3 = ((m : Int)) + 1 ∧ m ≤ 10 :=
    ⟨(l3 - 1).toNat, by omega, by omega⟩
  obtain ⟨m4, rfl, hb4⟩ : ∃ m : Nat, l4 = ((m : Int)) + 1 ∧ m ≤ 10 :=
    ⟨(l4 - 1).toNat, by omega, by omega⟩
  obtain ⟨m5, rfl, hb5⟩ : ∃ m : Nat, l5 = ((m : Int)) + 1 ∧ m ≤ 10 :=
    ⟨(l5 - 1).toNat, by omega, by omega⟩
  obtain ⟨m6, rfl, hb6⟩ : ∃ m : Nat, l6 = ((m : Int)) + 1 ∧ m ≤ 10 :=
    ⟨(l6 - 1).toNat, by omega, by omega⟩
  obtain ⟨m7, rfl, hb7⟩ : ∃ m : Nat, l7 = ((m : Int)) + 1 ∧ m ≤ 10 :=
    ⟨(l7 - 1).toNat, by omega, by omega⟩
  obtain ⟨m8, rfl, hb8⟩ : ∃ m : Nat, l8 = ((m : Int)) + 1 ∧ m ≤ 10 :=
    ⟨(l8 - 1).toNat, by omega, by omega⟩
  obtain ⟨m9, rfl, hb9⟩ : ∃ m : Nat, l9 = ((m : Int)) + 1 ∧ m ≤ 10 :=
    ⟨(l9 - 1).toNat, by omega, by omega⟩
  obtain ⟨m10, rfl, hb10⟩ : ∃ m : Nat, l10 = ((m : Int)) + 1 ∧ m ≤ 10 :=
    ⟨(l10 - 1).toNat, by omega, by omega⟩
  obtain ⟨m11, rfl, hb11⟩ : ∃ m : Nat, l11 = ((m : Int)) + 1 ∧ m ≤ 10 :=
    ⟨(l11 - 1).toNat, by omega, by omega⟩
  -- the 48-bit packed integer
  have hfold : (List.range 12).foldl
      (fun n i => n |||
        ((((clampRelicLv ([((m0 : Int)) + 1, ((m1 : Int)) + 1, ((m2 : Int)) + 1, ((m3 : Int)) + 1, ((m4 : Int)) + 1, ((m5 : Int)) + 1, ((m6 : Int)) + 1, ((m7 : Int)) + 1, ((m8 : Int)) + 1, ((m9 : Int)) + 1, ((m10 : Int)) + 1, ((m11 : Int)) + 1].getD i 1)) - 1).toNat &&& 15) <<< ((11 - i) * 4))) 0 =
      m0 * 2 ^ 44 + m1 * 2 ^ 40 + m2 * 2 ^ 36 + m3 * 2 ^ 32 + m4 * 2 ^ 28 + m5 * 2 ^ 24 + m6 * 2 ^ 20 + m7 * 2 ^ 16 + m8 * 2 ^ 12 + m9 * 2 ^ 8 + m10 * 2 ^ 4 + m11 * 2 ^ 0 := by
    rw [show List.range 12 = [0, 1, 2, 3, 4, 5, 6, 7, 8, 9, 10, 11] from rfl]
    simp only [List.foldl_cons, List.foldl_nil, List.getD_cons_zero, List.getD_cons_succ]
    have hc0 : ((clampRelicLv (((m0 : Int)) + 1) - 1).toNat &&& 15) = m0 := by
      rw [and15_eq]
      unfold clampRelicLv
      omega
    have hc1 : ((clampRelicLv (((m1 : Int)) + 1) - 1).toNat &&& 15) = m1 := by
      rw [and15_eq]
      unfold clampRelicLv
      omega
    have hc2 : ((clampRelicLv (((m2 : Int)) + 1) - 1).toNat &&& 15) = m2 := by
      rw [and15_eq]
      unfold clampRelicLv
      omega
    have hc3 : ((clampRelicLv (((m3 : Int)) + 1) - 1).toNat &&& 15) = m3 := by
      rw [and15_eq]
      unfold clampRelicLv
      omega
    have hc4 : ((clampRelicLv (((m4 : Int)) + 1) - 1).toNat &&& 15) = m4 := by
      rw [and15_eq]
      unfold clampRelicLv
      omega
    have hc5 : ((clampRelicLv (((m5 : Int)) + 1) - 1).toNat &&& 15) = m5 := by
      rw [and15_eq]
      unfold clampRelicLv
      omega
    have hc6 : ((clampRelicLv (((m6 : Int)) + 1) - 1).toNat &&& 15) = m6 := by
      rw [and15_eq]
      unfold clampRelicLv
      omega
    have hc7 : ((clampRelicLv (((m7 : Int)) + 1) - 1).toNat &&& 15) = m7 := by
      rw [and15_eq]
      unfold clampRelicLv
      omega
    have hc8 : ((clampRelicLv (((m8 : Int)) + 1) - 1).toNat &&& 15) = m8 := by
      rw [and15_eq]
      unfold clampRelicLv
      omega
    have hc9 : ((clampRelicLv (((m9 : Int)) + 1) - 1).toNat &&& 15) = m9 := by
      rw [and15_eq]
      unfold clampRelicLv
      omega
    have hc10 : ((clampRelicLv (((m10 : Int)) + 1) - 1).toNat &&& 15) = m10 := by
      rw [and15_eq]
      unfold clampRelicLv
      omega
    have hc11 : ((clampRelicLv (((m11 : Int)) + 1) - 1).toNat &&& 15) = m11 := by
      rw [and15_eq]
      unfold clampRelicLv
      omega
    rw [hc0, hc1, hc2, hc3, hc4, hc5, hc6, hc7, hc8, hc9, hc10, hc11]
    rw [Nat.zero_or, Nat.shiftLeft_eq]
    rw [or_shift16 _ m1 40 (by omega) (by omega)]
    rw [or_shift16 _ m2 36 (by omega) (by omega)]
    rw [or_shift16 _ m3 32 (by omega) (by omega)]
    rw [or_shift16 _ m4 28 (by omega) (by omega)]
    rw [or_shift16 _ m5 24 (by omega) (by omega)]
    rw [or_shift16 _ m6 20 (by omega) (by omega)]
    rw [or_shift16 _ m7 16 (by omega) (by omega)]
    rw [or_shift16 _ m8 12 (by omega) (by omega)]
    rw [or_shift16 _ m9 8 (by omega) (by omega)]
    rw [or_shift16 _ m10 4 (by omega) (by omega)]
    rw [or_shift16 _ m11 0 (by omega) (by omega)]
  -- expose the byte list
  have hbyteslist : packRelicLevels [((m0 : Int)) + 1, ((m1 : Int)) + 1, ((m2 : Int)) + 1, ((m3 : Int)) + 1, ((m4 : Int)) + 1, ((m5 : Int)) + 1, ((m6 : Int)) + 1, ((m7 : Int)) + 1, ((m8 : Int)) + 1, ((m9 : Int)) + 1, ((m10 : Int)) + 1, ((m11 : Int)) + 1] = bytesToB64Url [((m0 * 2 ^ 44 + m1 * 2 ^ 40 + m2 * 2 ^ 36 + m3 * 2 ^ 32 + m4 * 2 ^ 28 + m5 * 2 ^ 24 + m6 * 2 ^ 20 + m7 * 2 ^ 16 + m8 * 2 ^ 12 + m9 * 2 ^ 8 + m10 * 2 ^ 4 + m11 * 2 ^ 0) >>> 40) &&& 255, ((m0 * 2 ^ 44 + m1 * 2 ^ 40 + m2 * 2 ^ 36 + m3 * 2 ^ 32 + m4 * 2 ^ 28 + m5 * 2 ^ 24 + m6 * 2 ^ 20 + m7 * 2 ^ 16 + m8 * 2 ^ 12 + m9 * 2 ^ 8 + m10 * 2 ^ 4 + m11 * 2 ^ 0) >>> 32) &&& 255, ((m0 * 2 ^ 44 + m1 * 2 ^ 40 + m2 * 2 ^ 36 + m3 * 2 ^ 32 + m4 * 2 ^ 28 + m5 * 2 ^ 24 + m6 * 2 ^ 20 + m7 * 2 ^ 16 + m8 * 2 ^ 12 + m9 * 2 ^ 8 + m10 * 2 ^ 4 + m11 * 2 ^ 0) >>> 24) &&& 255, ((m0 * 2 ^ 44 + m1 * 2 ^ 40 + m2 * 2 ^ 36 + m3 * 2 ^ 32 + m4 * 2 ^ 28 + m5 * 2 ^ 24 + m6 * 2 ^ 20 + m7 * 2 ^ 16 + m8 * 2 ^ 12 + m9 * 2 ^ 8 + m10 * 2 ^ 4 + m11 * 2 ^ 0) >>> 16) &&& 255, ((m0 * 2 ^ 44 + m1 * 2 ^ 40 + m2 * 2 ^ 36 + m3 * 2 ^ 32 + m4 * 2 ^ 28 + m5 * 2 ^ 24 + m6 * 2 ^ 20 + m7 * 2 ^ 16 + m8 * 2 ^ 12 + m9 * 2 ^ 8 + m10 * 2 ^ 4 + m11 * 2 ^ 0) >>> 8) &&& 255, ((m0 * 2 ^ 44 + m1 * 2 ^ 40 + m2 * 2 ^ 36 + m3 * 2 ^ 32 + m4 * 2 ^ 28 + m5 * 2 ^ 24 + m6 * 2 ^ 20 + m7 * 2 ^ 16 + m8 * 2 ^ 12 + m9 * 2 ^ 8 + m10 * 2 ^ 4 + m11 * 2 ^ 0) >>> 0) &&& 255] := by
    simp only [packRelicLevels]
    rw [hfold]
    rw [show List.range 6 = [0, 1, 2, 3, 4, 5] from rfl]
    simp only [List.map_cons, List.map_nil]
  obtain ⟨hunp, hlen8, hnemp⟩ := relic_token_decode (m0 * 2 ^ 44 + m1 * 2 ^ 40 + m2 * 2 ^ 36 + m3 * 2 ^ 32 + m4 * 2 ^ 28 + m5 * 2 ^ 24 + m6 * 2 ^ 20 + m7 * 2 ^ 16 + m8 * 2 ^ 12 + m9 * 2 ^ 8 + m10 * 2 ^ 4 + m11 * 2 ^ 0) (by omega)
  have he0 : clampRelicLv (((((m0 * 2 ^ 44 + m1 * 2 ^ 40 + m2 * 2 ^ 36 + m3 * 2 ^ 32 + m4 * 2 ^ 28 + m5 * 2 ^ 24 + m6 * 2 ^ 20 + m7 * 2 ^ 16 + m8 * 2 ^ 12 + m9 * 2 ^ 8 + m10 * 2 ^ 4 + m11 * 2 ^ 0) >>> 44) &&& 15) + 1 : Nat) : Int) =
      ((m0 : Int)) + 1 := by
    rw [Nat.shiftRight_eq_div_pow, and15_eq]
    unfold clampRelicLv
    omega
  have he1 : clampRelicLv (((((m0 * 2 ^ 44 + m1 * 2 ^ 40 + m2 * 2 ^ 36 + m3 * 2 ^ 32 + m4 * 2 ^ 28 + m5 * 2 ^ 24 + m6 * 2 ^ 20 + m7 * 2 ^ 16 + m8 * 2 ^ 12 + m9 * 2 ^ 8 + m10 * 2 ^ 4 + m11 * 2 ^ 0) >>> 40) &&& 15) + 1 : Nat) : Int) =
      ((m1 : Int)) + 1 := by
    rw [Nat.shiftRight_eq_div_pow, and15_eq]
    unfold clampRelicLv
    omega
  have he2 : clampRelicLv (((((m0 * 2 ^ 44 + m1 * 2 ^ 40 + m2 * 2 ^ 36 + m3 * 2 ^ 32 + m4 * 2 ^ 28 + m5 * 2 ^ 24 + m6 * 2 ^ 20 + m7 * 2 ^ 16 + m8 * 2 ^ 12 + m9 * 2 ^ 8 + m10 * 2 ^ 4 + m11 * 2 ^ 0) >>> 36) &&& 15) + 1 : Nat) : Int) =
      ((m2 : Int)) + 1 := by
    rw [Nat.shiftRight_eq_div_pow, and15_eq]
    unfold clampRelicLv
    omega
  have he3 : clampRelicLv (((((m0 * 2 ^ 44 + m1 * 2 ^ 40 + m2 * 2 ^ 36 + m3 * 2 ^ 32 + m4 * 2 ^ 28 + m5 * 2 ^ 24 + m6 * 2 ^ 20 + m7 * 2 ^ 16 + m8 * 2 ^ 12 + m9 * 2 ^ 8 + m10 * 2 ^ 4 + m11 * 2 ^ 0) >>> 32) &&& 15) + 1 : Nat) : Int) =
      ((m3 : Int)) + 1 := by
    rw [Nat.shiftRight_eq_div_pow, and15_eq]
    unfold clampRelicLv
    omega
  have he4 : clampRelicLv (((((m0 * 2 ^ 44 + m1 * 2 ^ 40 + m2 * 2 ^ 36 + m3 * 2 ^ 32 + m4 * 2 ^ 28 + m5 * 2 ^ 24 + m6 * 2 ^ 20 + m7 * 2 ^ 16 + m8 * 2 ^ 12 + m9 * 2 ^ 8 + m10 * 2 ^ 4 + m11 * 2 ^ 0) >>> 28) &&& 15) + 1 : Nat) : Int) =
      ((m4 : Int)) + 1 := by
    rw [Nat.shiftRight_eq_div_pow, and15_eq]
    unfold clampRelicLv
    omega
  have he5 : clampRelicLv (((((m0 * 2 ^ 44 + m1 * 2 ^ 40 + m2 * 2 ^ 36 + m3 * 2 ^ 32 + m4 * 2 ^ 28 + m5 * 2 ^ 24 + m6 * 2 ^ 20 + m7 * 2 ^ 16 + m8 * 2 ^ 12 + m9 * 2 ^ 8 + m10 * 2 ^ 4 + m11 * 2 ^ 0) >>> 24) &&& 15) + 1 : Nat) : Int) =
      ((m5 : Int)) + 1 := by
    rw [Nat.shiftRight_eq_div_pow, and15_eq]
    unfold clampRelicLv
    omega
  have he6 : clampRelicLv (((((m0 * 2 ^ 44 + m1 * 2 ^ 40 + m2 * 2 ^ 36 + m3 * 2 ^ 32 + m4 * 2 ^ 28 + m5 * 2 ^ 24 + m6 * 2 ^ 20 + m7 * 2 ^ 16 + m8 * 2 ^ 12 + m9 * 2 ^ 8 + m10 * 2 ^ 4 + m11 * 2 ^ 0) >>> 20) &&& 15) + 1 : Nat) : Int) =
      ((m6 : Int)) + 1 := by
    rw [Nat.shiftRight_eq_div_pow, and15_eq]
    unfold clampRelicLv
    omega
  have he7 : clampRelicLv (((((m0 * 2 ^ 44 + m1 * 2 ^ 40 + m2 * 2 ^ 36 + m3 * 2 ^ 32 + m4 * 2 ^ 28 + m5 * 2 ^ 24 + m6 * 2 ^ 20 + m7 * 2 ^ 16 + m8 * 2 ^ 12 + m9 * 2 ^ 8 + m10 * 2 ^ 4 + m11 * 2 ^ 0) >>> 16) &&& 15) + 1 : Nat) : Int) =
      ((m7 : Int)) + 1 := by
    rw [Nat.shiftRight_eq_div_pow, and15_eq]
    unfold clampRelicLv
    omega
  have he8 : clampRelicLv (((((m0 * 2 ^ 44 + m1 * 2 ^ 40 + m2 * 2 ^ 36 + m3 * 2 ^ 32 + m4 * 2 ^ 28 + m5 * 2 ^ 24 + m6 * 2 ^ 20 + m7 * 2 ^ 16 + m8 * 2 ^ 12 + m9 * 2 ^ 8 + m10 * 2 ^ 4 + m11 * 2 ^ 0) >>> 12) &&& 15) + 1 : Nat) : Int) =
      ((m8 : Int)) + 1 := by
    rw [Nat.shiftRight_eq_div_pow, and15_eq]
    unfold clampRelicLv
    omega
  have he9 : clampRelicLv (((((m0 * 2 ^ 44 + m1 * 2 ^ 40 + m2 * 2 ^ 36 + m3 * 2 ^ 32 + m4 * 2 ^ 28 + m5 * 2 ^ 24 + m6 * 2 ^ 20 + m7 * 2 ^ 16 + m8 * 2 ^ 12 + m9 * 2 ^ 8 + m10 * 2 ^ 4 + m11 * 2 ^ 0) >>> 8) &&& 15) + 1 : Nat) : Int) =
      ((m9 : Int)) + 1 := by
    rw [Nat.shiftRight_eq_div_pow, and15_eq]
    unfold clampRelicLv
    omega
  have he10 : clampRelicLv (((((m0 * 2 ^ 44 + m1 * 2 ^ 40 + m2 * 2 ^ 36 + m3 * 2 ^ 32 + m4 * 2 ^ 28 + m5 * 2 ^ 24 + m6 * 2 ^ 20 + m7 * 2 ^ 16 + m8 * 2 ^ 12 + m9 * 2 ^ 8 + m10 * 2 ^ 4 + m11 * 2 ^ 0) >>> 4) &&& 15) + 1 : Nat) : Int) =
      ((m10 : Int)) + 1 := by
    rw [Nat.shiftRight_eq_div_pow, and15_eq]
    unfold clampRelicLv
    omega
  have he11 : clampRelicLv (((((m0 * 2 ^ 44 + m1 * 2 ^ 40 + m2 * 2 ^ 36 + m3 * 2 ^ 32 + m4 * 2 ^ 28 + m5 * 2 ^ 24 + m6 * 2 ^ 20 + m7 * 2 ^ 16 + m8 * 2 ^ 12 + m9 * 2 ^ 8 + m10 * 2 ^ 4 + m11 * 2 ^ 0) >>> 0) &&& 15) + 1 : Nat) : Int) =
      ((m11 : Int)) + 1 := by
    rw [Nat.shiftRight_eq_div_pow, and15_eq]
    unfold clampRelicLv
    omega
  rw [he0, he1, he2, he3, he4, he5, he6, he7, he8, he9, he10, he11] at hunp
  -- dispatch through parseRelicParam
  rw [hbyteslist]
  simp only [parseRelicParam]
  rw [if_neg hnemp]
  rw [if_neg (show ¬((bytesToB64Url [((m0 * 2 ^ 44 + m1 * 2 ^ 40 + m2 * 2 ^ 36 + m3 * 2 ^ 32 + m4 * 2 ^ 28 + m5 * 2 ^ 24 + m6 * 2 ^ 20 + m7 * 2 ^ 16 + m8 * 2 ^ 12 + m9 * 2 ^ 8 + m10 * 2 ^ 4 + m11 * 2 ^ 0) >>> 40) &&& 255, ((m0 * 2 ^ 44 + m1 * 2 ^ 40 + m2 * 2 ^ 36 + m3 * 2 ^ 32 + m4 * 2 ^ 28 + m5 * 2 ^ 24 + m6 * 2 ^ 20 + m7 * 2 ^ 16 + m8 * 2 ^ 12 + m9 * 2 ^ 8 + m10 * 2 ^ 4 + m11 * 2 ^ 0) >>> 32) &&& 255, ((m0 * 2 ^ 44 + m1 * 2 ^ 40 + m2 * 2 ^ 36 + m3 * 2 ^ 32 + m4 * 2 ^ 28 + m5 * 2 ^ 24 + m6 * 2 ^ 20 + m7 * 2 ^ 16 + m8 * 2 ^ 12 + m9 * 2 ^ 8 + m10 * 2 ^ 4 + m11 * 2 ^ 0) >>> 24) &&& 255, ((m0 * 2 ^ 44 + m1 * 2 ^ 40 + m2 * 2 ^ 36 + m3 * 2 ^ 32 + m4 * 2 ^ 28 + m5 * 2 ^ 24 + m6 * 2 ^ 20 + m7 * 2 ^ 16 + m8 * 2 ^ 12 + m9 * 2 ^ 8 + m10 * 2 ^ 4 + m11 * 2 ^ 0) >>> 16) &&& 255, ((m0 * 2 ^ 44 + m1 * 2 ^ 40 + m2 * 2 ^ 36 + m3 * 2 ^ 32 + m4 * 2 ^ 28 + m5 * 2 ^ 24 + m6 * 2 ^ 20 + m7 * 2 ^ 16 + m8 * 2 ^ 12 + m9 * 2 ^ 8 + m10 * 2 ^ 4 + m11 * 2 ^ 0) >>> 8) &&& 255, ((m0 * 2 ^ 44 + m1 * 2 ^ 40 + m2 * 2 ^ 36 + m3 * 2 ^ 32 + m4 * 2 ^ 28 + m5 * 2 ^ 24 + m6 * 2 ^ 20 + m7 * 2 ^ 16 + m8 * 2 ^ 12 + m9 * 2 ^ 8 + m10 * 2 ^ 4 + m11 * 2 ^ 0) >>> 0) &&& 255]).length = 1) from by rw [hlen8]; omega)]
  rw [hunp]

/-- One-character shorthand tokens decode to twelve equal levels for every
value in 1..11. -/
theorem relic_shorthand : ∀ v : Nat, v < 12 → 1 ≤ v →
    parseRelicParam (some (natToB36 v)) = some (List.replicate 12 ((v : Int))) := by
  decide

/-! ### Claim C1 -/

/-- C1 (confirmed): for every tuple of 12 integer levels each in [1, 11],
decoding the encoded token reproduces the tuple exactly — both for the
48-bit bit-packing path (`packRelicLevels` then `parseRelicParam` via
base64url) and, when all twelve levels are equal, for the shorthand single
base-36 digit emitted instead. -/
theorem claim_C1_relic_roundtrip (L : List Int) (hlen : L.length = 12)
    (hin : ∀ x ∈ L, 1 ≤ x ∧ x ≤ 11) :
    parseRelicParam (some (packRelicLevels L)) = some L ∧
    (∀ v : Nat, L = List.replicate 12 ((v : Int)) → 1 ≤ v → v ≤ 11 →
      parseRelicParam (some (natToB36 v)) = some L) := by
  constructor
  · obtain ⟨a0, a1, a2, a3, a4, a5, a6, a7, a8, a9, a10, a11, rfl⟩ :
        ∃ a0 a1 a2 a3 a4 a5 a6 a7 a8 a9 a10 a11,
          L = [a0, a1, a2, a3, a4, a5, a6, a7, a8, a9, a10, a11] := by
      match L, hlen with
      | [a0, a1, a2, a3, a4, a5, a6, a7, a8, a9, a10, a11], _ =>
        exact ⟨a0, a1, a2, a3, a4, a5, a6, a7, a8, a9, a10, a11, rfl⟩
    exact packRelic_roundtrip a0 a1 a2 a3 a4 a5 a6 a7 a8 a9 a10 a11
      (hin a0 (by simp)) (hin a1 (by simp)) (hin a2 (by simp)) (hin a3 (by simp))
      (hin a4 (by simp)) (hin a5 (by simp)) (hin a6 (by simp)) (hin a7 (by simp))
      (hin a8 (by simp)) (hin a9 (by simp)) (hin a10 (by simp)) (hin a11 (by simp))
  · intro v hrep hv1 hv11
    rw [hrep]
    exact relic_shorthand v (by omega) hv1

/-- C1 witness: the round trip at the concrete tuple [1, …, 11, 1] and the
shorthand at the all-7 tuple. -/
theorem claim_C1_witness :
    parseRelicParam (some (packRelicLevels
        [1, 2, 3, 4, 5, 6, 7, 8, 9, 10, 11, (1 : Int)])) =
      some [1, 2, 3, 4, 5, 6, 7, 8, 9, 10, 11, (1 : Int)] ∧
    parseRelicParam (some (natToB36 7)) = some (List.replicate 12 ((7 : Int))) := by
  constructor
  · exact (claim_C1_relic_roundtrip [1, 2, 3, 4, 5, 6, 7, 8, 9, 10, 11, (1 : Int)]
      (by decide) (by decide)).1
  · exact (claim_C1_relic_roundtrip (List.replicate 12 ((7 : Int)))
      (by decide) (by decide)).2 7 rfl (by decide) (by decide)

/-- A one-character token never base64url-decodes: after padding it has a
`=` in second position (or consists of padding only), which
forgiving-base64 rejects. -/
theorem b64UrlToBytes_len1 (s : String) (h : s.length = 1) : b64UrlToBytes s = none := by
  obtain ⟨c, hc⟩ : ∃ c, s.data = [c] := by
    cases hd : s.data with
    | nil => rw [show s.length = s.data.length from rfl, hd] at h; cases h
    | cons x l =>
      cases l with
      | nil => exact ⟨x, rfl⟩
      | cons y t =>
        rw [show s.length = s.data.length from rfl, hd] at h
        simp at h
  have heqws : isB64Ws ('=') = false := by decide
  have hdeq : b64DecChar ('=') = none := by decide
  show atob ⟨(s.data.map substFromUrl) ++
      List.replicate ((4 - (s.data.map substFromUrl).length % 4) % 4) ('=')⟩ = none
  rw [hc]
  show atob ⟨[substFromUrl c, '=', '=', '=']⟩ = none
  by_cases hws : isB64Ws (substFromUrl c)
  · have hfil : ([substFromUrl c, '=', '=', '=']).filter (fun x => !(isB64Ws x)) =
        ['=', '=', '='] := by
      simp [List.filter, hws, heqws]
    simp only [atob, data_mk, hfil]
    decide
  · have hfil : ([substFromUrl c, '=', '=', '=']).filter (fun x => !(isB64Ws x)) =
        [substFromUrl c, '=', '=', '='] := by
      simp [List.filter, hws, heqws]
    have hstrip : stripTrailingEqs [substFromUrl c, '=', '=', '='] = [substFromUrl c, '='] := by
      simp [stripTrailingEqs]
    have hdecs : decodeB64Chars [substFromUrl c, ('=')] = none := by
      show (match b64DecChar (substFromUrl c), decodeB64Chars [('=')] with
        | some v, some r => some (v :: r)
        | _, _ => none) = none
      have h1 : decodeB64Chars [('=')] = none := by
        show (match b64DecChar ('='), decodeB64Chars ([] : List Char) with
          | some v, some r => some (v :: r)
          | _, _ => none) = none
        rw [hdeq]
      rw [h1]
      cases b64DecChar (substFromUrl c) <;> rfl
    simp only [atob, data_mk, hfil, List.length_cons, List.length_nil, hstrip, hdecs,
      if_true]
    simp [hdecs]

/-! ### Claim C6 -/

/-- C6 (confirmed): relic-token decoding never escapes `parseRelicParam` as
an exception: the absent parameter, the empty string and the invalid
base64url string `"!!"` all give no value, and so does every token whose
base64url decoding succeeds with other than exactly 6 bytes (a thrown
`atob` error, modelled by `b64UrlToBytes = none`, is caught and also gives
no value, as the `"!!"` case shows). -/
theorem claim_C6_no_throw :
    parseRelicParam none = none ∧
    parseRelicParam (some ("")) = none ∧
    parseRelicParam (some ("!!")) = none ∧
    (∀ s bytes, b64UrlToBytes s = some bytes → bytes.length ≠ 6 →
      parseRelicParam (some s) = none) := by
  refine ⟨rfl, by decide, by decide, ?_⟩
  intro s bytes hdec hne6
  by_cases hemp : s = ""
  · rw [hemp]
    decide
  · by_cases hone : s.length = 1
    · rw [b64UrlToBytes_len1 s hone] at hdec
      cases hdec
    · simp only [parseRelicParam, if_neg hemp, if_neg hone, unpackRelicLevels, hdec,
        if_pos hne6]

/-- C6 witness: the conjunct with hypotheses applied to the 4-byte token
`"AAAAAA"` (6 characters decode to 4 bytes, not 6). -/
theorem claim_C6_witness : parseRelicParam (some ("AAAAAA")) = none :=
  claim_C6_no_throw.2.2.2 ("AAAAAA") [0, 0, 0, 0] (by decide) (by decide)

/-! ### Claim C7 -/

/-- C7 (confirmed): a one-character relic token is parsed as base 36 and
never reaches the bit-packing decoder: a parsed value in [1, 11] fills all
twelve slots (`RELIC_KEYS.length = 12`), any other parse outcome gives no
value. -/
theorem claim_C7_single_char (s : String) (hlen : s.length = 1) :
    RELIC_KEYS.length = 12 ∧
    (∀ lv, jsParseInt36 s = some lv → 1 ≤ lv → lv ≤ 11 →
      parseRelicParam (some s) = some (List.replicate 12 lv)) ∧
    (∀ lv, jsParseInt36 s = some lv → ¬(1 ≤ lv ∧ lv ≤ 11) →
      parseRelicParam (some s) = none) ∧
    (jsParseInt36 s = none → parseRelicParam (some s) = none) := by
  have hne : ¬(s = "") := by
    intro h
    rw [h] at hlen
    cases hlen
  refine ⟨rfl, ?_, ?_, ?_⟩
  · intro lv hp h1 h11
    simp only [parseRelicParam, if_neg hne, if_pos hlen, hp]
    rw [if_pos ⟨h1, h11⟩]
    rfl
  · intro lv hp hout
    simp only [parseRelicParam, if_neg hne, if_pos hlen, hp]
    rw [if_neg hout]
  · intro hp
    simp only [parseRelicParam, if_neg hne, if_pos hlen, hp]

/-- C7 witness: the in-range branch at the token `"7"` and the out-of-range
branch at `"c"` (value 12). -/
theorem claim_C7_witness :
    parseRelicParam (some ("7")) = some (List.replicate 12 ((7 : Int))) ∧
    parseRelicParam (some ("c")) = none := by
  constructor
  · exact (claim_C7_single_char ("7") (by decide)).2.1 7 (by decide) (by decide) (by decide)
  · exact (claim_C7_single_char ("c") (by decide)).2.2.1 12 (by decide) (by decide)

/-! ### `URLSearchParams` (query-string) model -/

/-- A parsed query string: name-value pairs in order, as character lists.
Percent- and plus-decoding are not modelled: every string handled by
`persistStateToUrl` stays inside the base64url/base36 alphabets and the
fixed keys `r`/`o`, on which `URLSearchParams` decoding is the identity. -/
abbrev QS := List (List Char × List Char)

/-- Split a character list on a separator; `n` separators give `n + 1`
(possibly empty) groups. -/
def splitOnChar (sep : Char) : List Char → List (List Char)
  | [] => [[]]
  | c :: t =>
    if c = sep then [] :: splitOnChar sep t
    else
      match splitOnChar sep t with
      | [] => [[c]]
      | g :: gs => (c :: g) :: gs

/-- `new URLSearchParams(s)` on a character list (no leading `?`): split on
`&`, skip empty pieces, split each piece at its first `=` (a piece without
`=` has value `""`). -/
def parseQSData (d : List Char) : QS :=
  ((splitOnChar ('&') d).filter (fun p => !(p.isEmpty))).map
    (fun p => (p.takeWhile (fun c => !(c == ('='))),
      (p.dropWhile (fun c => !(c == ('=')))).tail))

/-- `new URLSearchParams(location.search)`: one leading `?` is stripped. -/
def parseQS (s : String) : QS :=
  parseQSData (if s.data.head? = some ('?') then s.data.tail else s.data)

/-- `params.toString()`: serialize `name=value` pairs joined by `&`. -/
def serializeQSData : QS → List Char
  | [] => []
  | p :: t =>
    match t with
    | [] => p.1 ++ ('=') :: p.2
    | _ :: _ => (p.1 ++ ('=') :: p.2) ++ ('&') :: serializeQSData t

/-- `params.toString()` as a string. -/
def serializeQS (ps : QS) : String := ⟨serializeQSData ps⟩

/-- `params.get(k)`: value of the first pair named `k`, if any. -/
def qsGet (k : List Char) (ps : QS) : Option (List Char) :=
  (ps.find? (fun p => p.1 == k)).map (fun p => p.2)

/-- `params.delete(k)`: remove every pair named `k`. -/
def qsDelete (k : List Char) (ps : QS) : QS :=
  ps.filter (fun p => !(p.1 == k))

/-- Body of `params.set(k, v)` when a pair named `k` exists: replace the
first such pair and drop the later ones. -/
def qsSetGo (k v : List Char) : QS → QS
  | [] => []
  | p :: t => if p.1 == k then (k, v) :: qsDelete k t else p :: qsSetGo k v t

/-- `params.set(k, v)`: replace the first pair named `k` and drop the rest,
or append the pair when the name is absent. -/
def qsSet (k v : List Char) (ps : QS) : QS :=
  if ps.any (fun p => p.1 == k) then qsSetGo k v ps else ps ++ [(k, v)]

/-! ### Query-string lemmas -/

/-- Splitting a list free of the separator gives one group. -/
theorem splitOnChar_no_sep (sep : Char) (l : List Char) (h : ∀ c ∈ l, ¬(c = sep)) :
    splitOnChar sep l = [l] := by
  induction l with
  | nil => rfl
  | cons c t ih =>
    show (if c = sep then [] :: splitOnChar sep t
      else
        match splitOnChar sep t with
        | [] => [[c]]
        | g :: gs => (c :: g) :: gs) = [c :: t]
    rw [if_neg (h c (List.mem_cons_self _ _)),
      ih (fun x hx => h x (List.mem_cons_of_mem c hx))]

/-- Splitting past a separator-free prefix peels off one group. -/
theorem splitOnChar_append (sep : Char) (xs rest : List Char)
    (h : ∀ c ∈ xs, ¬(c = sep)) :
    splitOnChar sep (xs ++ sep :: rest) = xs :: splitOnChar sep rest := by
  induction xs with
  | nil =>
    show splitOnChar sep (sep :: rest) = [] :: splitOnChar sep rest
    simp [splitOnChar]
  | cons c t ih =>
    show (if c = sep then [] :: splitOnChar sep (t ++ sep :: rest)
      else
        match splitOnChar sep (t ++ sep :: rest) with
        | [] => [[c]]
        | g :: gs => (c :: g) :: gs) = (c :: t) :: splitOnChar sep rest
    rw [if_neg (h c (List.mem_cons_self _ _)),
      ih (fun x hx => h x (List.mem_cons_of_mem c hx))]

/-- Every group produced by splitting is free of the separator. -/
theorem splitOnChar_mem_no_sep (sep : Char) (l : List Char) :
    ∀ g ∈ splitOnChar sep l, ∀ c ∈ g, ¬(c = sep) := by
  induction l with
  | nil =>
    intro g hg c hc
    simp only [splitOnChar, List.mem_singleton] at hg
    subst hg
    simp at hc
  | cons x t ih =>
    intro g hg c hc
    have hg2 : g ∈ (if x = sep then [] :: splitOnChar sep t
        else
          match splitOnChar sep t with
          | [] => [[x]]
          | g :: gs => (x :: g) :: gs) := hg
    by_cases hx : x = sep
    · rw [if_pos hx] at hg2
      rcases List.mem_cons.mp hg2 with rfl | h1
      · simp at hc
      · exact ih g h1 c hc
    · rw [if_neg hx] at hg2
      cases hsp : splitOnChar sep t with
      | nil =>
        rw [hsp] at hg2
        simp only [List.mem_singleton] at hg2
        subst hg2
        rcases List.mem_singleton.mp hc with rfl
        exact hx
      | cons g0 gs =>
        rw [hsp] at hg2
        rcases List.mem_cons.mp hg2 with rfl | h1
        · rcases List.mem_cons.mp hc with rfl | h2
          · exact hx
          · exact ih g0 (by rw [hsp]; exact List.mem_cons_self _ _) c h2
        · exact ih g (by rw [hsp]; exact List.mem_cons_of_mem g0 h1) c hc

/-- Well-formedness of a pair list: names contain neither `&` nor `=` and
values contain no `&`. -/
def qsWf (ps : QS) : Prop :=
  ∀ p ∈ ps, (∀ c ∈ p.1, ¬(c = ('&')) ∧ ¬(c = ('='))) ∧ (∀ c ∈ p.2, ¬(c = ('&')))

/-- A serialized pair list is empty only for the empty list. -/
theorem serializeQSData_eq_nil (ps : QS) (h : serializeQSData ps = []) : ps = [] := by
  cases ps with
  | nil => rfl
  | cons p t =>
    cases t with
    | nil => simp [serializeQSData] at h
    | cons q t' => simp [serializeQSData] at h

/-- Parsing a serialized well-formed pair list returns it unchanged. -/
theorem parseQSData_serializeQSData (ps : QS) (h : qsWf ps) :
    parseQSData (serializeQSData ps) = ps := by
  induction ps with
  | nil => rfl
  | cons p t ih =>
    obtain ⟨hk, hv⟩ := h p (List.mem_cons_self _ _)
    have hseg : ∀ c ∈ p.1 ++ ('=') :: p.2, ¬(c = ('&')) := by
      intro c hc
      rcases List.mem_append.mp hc with h1 | h1
      · exact (hk c h1).1
      · rcases List.mem_cons.mp h1 with rfl | h2
        · decide
        · exact hv c h2
    have hhead : ∀ c, (('=') :: p.2).head? = some c → (!(c == ('='))) = false := by
      intro c hc
      have he : ('=') = c := by simpa using hc
      subst he
      simp
    have htk : (p.1 ++ ('=') :: p.2).takeWhile (fun c => !(c == ('='))) = p.1 := by
      rw [takeWhile_append_head _ p.1 (('=') :: p.2) (fun c hc => by simp [(hk c hc).2])
        hhead]
    have hdr : (p.1 ++ ('=') :: p.2).dropWhile (fun c => !(c == ('='))) = ('=') :: p.2 :=
      dropWhile_append_head _ p.1 (('=') :: p.2) (fun c hc => by simp [(hk c hc).2]) hhead
    cases t with
    | nil =>
      show parseQSData (p.1 ++ ('=') :: p.2) = [p]
      simp only [parseQSData]
      rw [splitOnChar_no_sep _ _ hseg]
      rw [List.filter_cons_of_pos (by simp)]
      simp only [List.filter_nil, List.map_cons, List.map_nil]
      rw [htk, hdr]
      rfl
    | cons q t' =>
      show parseQSData ((p.1 ++ ('=') :: p.2) ++ ('&') :: serializeQSData (q :: t')) =
        p :: q :: t'
      simp only [parseQSData]
      rw [splitOnChar_append _ _ _ hseg]
      rw [List.filter_cons_of_pos (by simp)]
      simp only [List.map_cons]
      rw [htk, hdr]
      have hx : parseQSData (serializeQSData (q :: t')) = q :: t' :=
        ih (fun r hr => h r (List.mem_cons_of_mem p hr))
      show (p.1, p.2) :: parseQSData (serializeQSData (q :: t')) = p :: q :: t'
      rw [hx]

/-- Parsed query strings are well-formed. -/
theorem parseQSData_wf (d : List Char) : qsWf (parseQSData d) := by
  intro p hp
  simp only [parseQSData, List.mem_map] at hp
  obtain ⟨g, hg, rfl⟩ := hp
  have hgm : g ∈ splitOnChar ('&') d := (List.mem_filter.mp hg).1
  have hno : ∀ c ∈ g, ¬(c = ('&')) := splitOnChar_mem_no_sep ('&') d g hgm
  constructor
  · intro c hc
    have hcg : c ∈ g := (List.takeWhile_prefix _).sublist.subset hc
    refine ⟨hno c hcg, ?_⟩
    have h2 := List.mem_takeWhile_imp hc
    intro he
    subst he
    simp at h2
  · intro c hc
    have h1 : c ∈ g.dropWhile (fun c => !(c == ('='))) := (List.tail_sublist _).subset hc
    exact hno c ((List.dropWhile_sublist _).subset h1)

/-- Deleted keys are gone. -/
theorem qsDelete_noKey (k : List Char) (ps : QS) : ∀ p ∈ qsDelete k ps, ¬(p.1 = k) := by
  intro p hp
  have h2 := (List.mem_filter.mp hp).2
  simpa using h2

/-- Deleting an absent key changes nothing. -/
theorem qsDelete_of_noKey (k : List Char) (ps : QS) (h : ∀ p ∈ ps, ¬(p.1 = k)) :
    qsDelete k ps = ps := by
  apply List.filter_eq_self.mpr
  intro p hp
  simpa using h p hp

/-- `qsDelete` only removes pairs. -/
theorem mem_qsDelete (k : List Char) (ps : QS) (p : List Char × List Char)
    (hp : p ∈ qsDelete k ps) : p ∈ ps := (List.mem_filter.mp hp).1

/-- A member of `qsSetGo k v ps` is a member of `ps` or the new pair. -/
theorem mem_qsSetGo (k v : List Char) :
    ∀ ps : QS, ∀ p ∈ qsSetGo k v ps, p ∈ ps ∨ p = (k, v) := by
  intro ps
  induction ps with
  | nil => intro p hp; simp [qsSetGo] at hp
  | cons q t ih =>
    intro p hp
    simp only [qsSetGo] at hp
    by_cases hq : (q.1 == k) = true
    · rw [if_pos hq] at hp
      rcases List.mem_cons.mp hp with rfl | h1
      · right; rfl
      · left; exact List.mem_cons_of_mem q (mem_qsDelete k t _ h1)
    · rw [if_neg hq] at hp
      rcases List.mem_cons.mp hp with rfl | h1
      · left; exact List.mem_cons_self _ _
      · rcases ih p h1 with h2 | h2
        · left; exact List.mem_cons_of_mem q h2
        · right; exact h2

/-- A member of `qsSet k v ps` is a member of `ps` or the new pair. -/
theorem mem_qsSet (k v : List Char) (ps : QS) (p : List Char × List Char)
    (hp : p ∈ qsSet k v ps) : p ∈ ps ∨ p = (k, v) := by
  unfold qsSet at hp
  by_cases hany : (ps.any (fun p => p.1 == k)) = true
  · rw [if_pos hany] at hp
    exact mem_qsSetGo k v ps p hp
  · rw [if_neg hany] at hp
    rcases List.mem_append.mp hp with h | h
    · left; exact h
    · right; simpa using h

/-- No pair of `ps` is named `k`. -/
def qsNoKey (k : List Char) (ps : QS) : Prop := ∀ p ∈ ps, ¬(p.1 = k)

/-- Exactly one pair of `ps` is named `k`, and it carries `v`. -/
def qsSetAt (k v : List Char) (ps : QS) : Prop :=
  ∃ pre post, ps = pre ++ (k, v) :: post ∧ qsNoKey k pre ∧ qsNoKey k post

/-- `qsDelete` of the same key establishes `qsNoKey`. -/
theorem qsNoKey_delete_self (k : List Char) (ps : QS) : qsNoKey k (qsDelete k ps) :=
  qsDelete_noKey k ps

/-- `qsNoKey` survives any deletion. -/
theorem qsNoKey_qsDelete (k k' : List Char) (ps : QS) (h : qsNoKey k ps) :
    qsNoKey k (qsDelete k' ps) :=
  fun p hp => h p (mem_qsDelete k' ps p hp)

/-- `qsNoKey` survives setting a different key. -/
theorem qsNoKey_qsSet (k k' v' : List Char) (ps : QS) (hne : ¬(k' = k))
    (h : qsNoKey k ps) : qsNoKey k (qsSet k' v' ps) := by
  intro p hp
  rcases mem_qsSet k' v' ps p hp with h1 | h1
  · exact h p h1
  · rw [h1]; exact hne

/-- `qsSetGo` on a list containing the key leaves exactly one pair for it. -/
theorem qsSetGo_setAt (k v : List Char) :
    ∀ ps : QS, (ps.any (fun p => p.1 == k)) = true → qsSetAt k v (qsSetGo k v ps) := by
  intro ps
  induction ps with
  | nil => intro h; simp at h
  | cons q t ih =>
    intro hany
    simp only [qsSetGo]
    by_cases hq : (q.1 == k) = true
    · rw [if_pos hq]
      exact ⟨[], qsDelete k t, rfl, by intro p hp; simp at hp, qsNoKey_delete_self k t⟩
    · rw [if_neg hq]
      have hant : (t.any (fun p => p.1 == k)) = true := by
        simpa [hq] using hany
      obtain ⟨pre, post, heq, h1, h2⟩ := ih hant
      refine ⟨q :: pre, post, ?_, ?_, h2⟩
      · simp only [List.cons_append]
        rw [heq]
      · intro p hp
        rcases List.mem_cons.mp hp with rfl | h3
        · simpa using hq
        · exact h1 p h3

/-- After `qsSet` the key occurs exactly once, with the new value. -/
theorem qsSet_setAt (k v : List Char) (ps : QS) : qsSetAt k v (qsSet k v ps) := by
  unfold qsSet
  by_cases hany : (ps.any (fun p => p.1 == k)) = true
  · rw [if_pos hany]
    exact qsSetGo_setAt k v ps hany
  · rw [if_neg hany]
    refine ⟨ps, [], rfl, ?_, by intro p hp; simp at hp⟩
    intro p hp hpk
    apply hany
    exact List.any_eq_true.mpr ⟨p, hp, by simp [hpk]⟩

/-- `qsSetGo` fixes a list already in `qsSetAt` form. -/
theorem qsSetGo_fix (k v : List Char) :
    ∀ pre post : QS, qsNoKey k pre → qsNoKey k post →
      qsSetGo k v (pre ++ (k, v) :: post) = pre ++ (k, v) :: post := by
  intro pre
  induction pre with
  | nil =>
    intro post _ h2
    show (if (k, v).1 == k then (k, v) :: qsDelete k post else (k, v) :: qsSetGo k v post) =
      (k, v) :: post
    rw [if_pos (by simp)]
    rw [qsDelete_of_noKey k post h2]
  | cons q pre' ih =>
    intro post h1 h2
    show (if q.1 == k then (k, v) :: qsDelete k (pre' ++ (k, v) :: post)
      else q :: qsSetGo k v (pre' ++ (k, v) :: post)) = q :: (pre' ++ (k, v) :: post)
    rw [if_neg (by simpa using h1 q (List.mem_cons_self _ _))]
    rw [ih post (fun p hp => h1 p (List.mem_cons_of_mem q hp)) h2]

/-- Re-setting the same pair changes nothing. -/
theorem qsSet_of_setAt (k v : List Char) (ps : QS) (h : qsSetAt k v ps) :
    qsSet k v ps = ps := by
  obtain ⟨pre, post, rfl, h1, h2⟩ := h
  unfold qsSet
  rw [if_pos (List.any_eq_true.mpr ⟨(k, v), by simp, by simp⟩)]
  exact qsSetGo_fix k v pre post h1 h2

/-- `qsSetAt` survives deleting a different key. -/
theorem qsSetAt_qsDelete (k v k' : List Char) (ps : QS) (hne : ¬(k = k'))
    (h : qsSetAt k v ps) : qsSetAt k v (qsDelete k' ps) := by
  obtain ⟨pre, post, rfl, h1, h2⟩ := h
  refine ⟨qsDelete k' pre, qsDelete k' post, ?_, qsNoKey_qsDelete k k' pre h1,
    qsNoKey_qsDelete k k' post h2⟩
  unfold qsDelete
  rw [List.filter_append, List.filter_cons_of_pos (by simp [hne])]

/-- `qsSetGo` for a different key preserves `qsSetAt`. -/
theorem qsSetAt_qsSetGo (k v k' v' : List Char) (hne : ¬(k = k')) :
    ∀ pre post : QS, qsNoKey k pre → qsNoKey k post →
      qsSetAt k v (qsSetGo k' v' (pre ++ (k, v) :: post)) := by
  intro pre
  induction pre with
  | nil =>
    intro post _ h2
    show qsSetAt k v (if (k, v).1 == k' then (k', v') :: qsDelete k' post
      else (k, v) :: qsSetGo k' v' post)
    rw [if_neg (by simp [hne])]
    refine ⟨[], qsSetGo k' v' post, rfl, by intro p hp; simp at hp, ?_⟩
    intro p hp
    rcases mem_qsSetGo k' v' post p hp with h3 | h3
    · exact h2 p h3
    · rw [h3]
      exact fun he => hne he.symm
  | cons q pre' ih =>
    intro post h1 h2
    show qsSetAt k v (if q.1 == k' then (k', v') :: qsDelete k' (pre' ++ (k, v) :: post)
      else q :: qsSetGo k' v' (pre' ++ (k, v) :: post))
    by_cases hq : (q.1 == k') = true
    · rw [if_pos hq]
      refine ⟨(k', v') :: qsDelete k' pre', qsDelete k' post, ?_, ?_,
        qsNoKey_qsDelete k k' post h2⟩
      · show (k', v') :: qsDelete k' (pre' ++ (k, v) :: post) =
          ((k', v') :: qsDelete k' pre') ++ (k, v) :: qsDelete k' post
        simp only [List.cons_append]
        congr 1
        unfold qsDelete
        rw [List.filter_append, List.filter_cons_of_pos (by simp [hne])]
      · intro p hp
        rcases List.mem_cons.mp hp with rfl | h3
        · exact fun he => hne he.symm
        · exact h1 p (List.mem_cons_of_mem q (mem_qsDelete k' pre' p h3))
    · rw [if_neg hq]
      obtain ⟨pre2, post2, heq, hh1, hh2⟩ :=
        ih post (fun p hp => h1 p (List.mem_cons_of_mem q hp)) h2
      refine ⟨q :: pre2, post2, ?_, ?_, hh2⟩
      · simp only [List.cons_append]
        rw [heq]
      · intro p hp
        rcases List.mem_cons.mp hp with rfl | h3
        · exact h1 _ (List.mem_cons_self _ _)
        · exact hh1 p h3

/-- `qsSet` with a different key preserves `qsSetAt`. -/
theorem qsSetAt_qsSet (k v k' v' : List Char) (ps : QS) (hne : ¬(k = k'))
    (h : qsSetAt k v ps) : qsSetAt k v (qsSet k' v' ps) := by
  unfold qsSet
  by_cases hany : (ps.any (fun p => p.1 == k')) = true
  · rw [if_pos hany]
    obtain ⟨pre, post, rfl, h1, h2⟩ := h
    exact qsSetAt_qsSetGo k v k' v' hne pre post h1 h2
  · rw [if_neg hany]
    obtain ⟨pre, post, rfl, h1, h2⟩ := h
    refine ⟨pre, post ++ [(k', v')], by simp, h1, ?_⟩
    intro p hp
    rcases List.mem_append.mp hp with h3 | h3
    · exact h2 p h3
    · rcases List.mem_singleton.mp h3 with rfl
      exact fun he => hne he.symm

/-- An absent key reads back as `none`. -/
theorem qsGet_of_noKey (k : List Char) (ps : QS) (h : qsNoKey k ps) :
    qsGet k ps = none := by
  unfold qsGet
  rw [List.find?_eq_none.mpr]
  · rfl
  · intro p hp
    simpa using h p hp

/-- The first pair named `k` in a `qsSetAt` decomposition. -/
theorem find_setAt (k v : List Char) : ∀ pre post : QS, qsNoKey k pre →
    ((pre ++ (k, v) :: post).find? (fun p => p.1 == k)) = some (k, v) := by
  intro pre
  induction pre with
  | nil =>
    intro post _
    rw [List.nil_append, List.find?_cons_of_pos _ (by simp)]
  | cons q pre' ih =>
    intro post h1
    rw [List.cons_append,
      List.find?_cons_of_neg _ (by simpa using h1 q (List.mem_cons_self _ _))]
    exact ih post (fun p hp => h1 p (List.mem_cons_of_mem q hp))

/-- A key in `qsSetAt` position reads back its value. -/
theorem qsGet_of_setAt (k v : List Char) (ps : QS) (h : qsSetAt k v ps) :
    qsGet k ps = some v := by
  obtain ⟨pre, post, rfl, h1, _⟩ := h
  unfold qsGet
  rw [find_setAt k v pre post h1]
  rfl

/-- Deleting preserves well-formedness. -/
theorem qsWf_qsDelete (k : List Char) (ps : QS) (h : qsWf ps) : qsWf (qsDelete k ps) :=
  fun p hp => h p (mem_qsDelete k ps p hp)

/-- Setting a well-formed pair preserves well-formedness. -/
theorem qsWf_qsSet (k v : List Char) (ps : QS) (h : qsWf ps)
    (hk : ∀ c ∈ k, ¬(c = ('&')) ∧ ¬(c = ('='))) (hv : ∀ c ∈ v, ¬(c = ('&'))) :
    qsWf (qsSet k v ps) := by
  intro p hp
  rcases mem_qsSet k v ps p hp with h1 | h1
  · exact h p h1
  · rw [h1]; exact ⟨hk, hv⟩

/-- Round trip through the search string: parsing the serialized form of a
well-formed pair list (with its leading `?` when nonempty) returns it. -/
theorem parseQS_serializeQS (ps : QS) (h : qsWf ps) :
    parseQS (if serializeQS ps = "" then "" else ("?") ++ serializeQS ps) = ps := by
  by_cases he : serializeQS ps = ""
  · rw [if_pos he]
    have hd : serializeQSData ps = [] := by
      have h2 := congrArg String.data he
      simpa using h2
    rw [serializeQSData_eq_nil ps hd]
    rfl
  · rw [if_neg he]
    have hd : (("?") ++ serializeQS ps).data = ('?') :: serializeQSData ps := rfl
    unfold parseQS
    rw [hd]
    rw [if_pos (show (('?') :: serializeQSData ps).head? = some ('?') from rfl)]
    exact parseQSData_serializeQSData ps h

/-! ### UI state, location and `persistStateToUrl` -/

/-- `clampRelicLv` on a select value string: `Number(s)`, 1 when not
finite, else `Math.trunc` then clamp to [1, 11]. -/
def clampRelicLvStr (s : String) : Int :=
  match jsNumber s with
  | none => 1
  | some d => clampRelicLv (Int.tdiv d.num ((10 : Int) ^ d.exp))

/-- The form-control values read by `url_state.js`: the twelve relic level
selects (in `RELIC_KEYS` order) and the three other-buffs controls. -/
structure UIState where
  relicValues : List String
  guildBlessing : String
  unitLevelSumBuff : String
  petLevelSum : String
  deriving DecidableEq

/-- The browser location slices used by `persistStateToUrl`
(`location.pathname`, `location.search`, `location.hash`). -/
structure Location where
  pathname : String
  search : String
  hash : String
  deriving DecidableEq

/-- `getRelicLevelsFromUI`: clamp each relic select value
(`el[k]?.value ?? 1` modelled by `getD` with the default `"1"`, on which
`clampRelicLv` also gives 1). -/
def getRelicLevelsFromUI (ui : UIState) : List Int :=
  (List.range RELIC_KEYS.length).map (fun i => clampRelicLvStr (ui.relicValues.getD i ("1")))

/-- `getOtherBuffsFromUI` (all three controls present). -/
def getOtherBuffsFromUI (ui : UIState) : OtherBuffs :=
  ⟨ui.guildBlessing, ui.unitLevelSumBuff, ui.petLevelSum⟩

/-- The `otherIsDefault` test of `persistStateToUrl`:
`String(g) === "1" && Number(u) === Number("0") && String(p) === "hoge"`
(the numeric comparison through JS `===` on `Number`s). -/
def otherIsDefault (other : OtherBuffs) : Bool :=
  (other.guildBlessing == OTHER_DEFAULTS.guildBlessing) &&
  decNumEqb (jsNumber other.unitLevelSumBuff) (jsNumber OTHER_DEFAULTS.unitLevelSumBuff) &&
  (other.petLevelSum == OTHER_DEFAULTS.petLevelSum)

/-- Query-parameter key `r`. -/
def rKey : List Char := [('r')]

/-- Query-parameter key `o`. -/
def oKey : List Char := [('o')]

/-- The value written under `r` when not all levels are 1: the single
base-36 digit if all twelve are equal (`levels[0].toString(36)`), else the
packed token. -/
def relicParamValue (levels : List Int) : String :=
  if levels.all (fun v => v == levels.getD 0 1) then natToB36 (levels.getD 0 1).toNat
  else packRelicLevels levels

/-- The relics branch of `persistStateToUrl`: delete `r` when every level
is 1, otherwise set it to `relicParamValue`. -/
def persistParamsR (loc : Location) (ui : UIState) : QS :=
  if (getRelicLevelsFromUI ui).all (fun v => v == 1) then qsDelete rKey (parseQS loc.search)
  else qsSet rKey (relicParamValue (getRelicLevelsFromUI ui)).data (parseQS loc.search)

/-- The parameter list built by `persistStateToUrl` before serialization:
the relics branch followed by the other-buffs branch (delete `o` when the
triple is the default, otherwise set it to the packed token). -/
def persistParams (loc : Location) (ui : UIState) : QS :=
  if otherIsDefault (getOtherBuffsFromUI ui) then qsDelete oKey (persistParamsR loc ui)
  else qsSet oKey (packOtherBuffs (getOtherBuffsFromUI ui)).data (persistParamsR loc ui)

/-- The URL rebuilt by `persistStateToUrl`:
`` qs ? `${pathname}?${qs}${hash}` : `${pathname}${hash}` ``. -/
def buildUrl (loc : Location) (qs : String) : String :=
  if qs = "" then loc.pathname ++ loc.hash
  else loc.pathname ++ ("?") ++ qs ++ loc.hash

/-- `persistStateToUrl`: rebuild the query string and call
`history.replaceState` (the returned flag) only when the rebuilt URL
differs from the current one; the new location keeps pathname and hash. -/
def persistStateToUrl (loc : Location) (ui : UIState) : Location × Bool :=
  if buildUrl loc (serializeQS (persistParams loc ui)) =
      loc.pathname ++ loc.search ++ loc.hash then (loc, false)
  else (Location.mk loc.pathname
    (if serializeQS (persistParams loc ui) = "" then ""
     else ("?") ++ serializeQS (persistParams loc ui)) loc.hash, true)

/-! ### Characters of the emitted parameter values -/

/-- Base-36 digits are not `&`. -/
theorem b36_digit_ne_amp (c : Char) (h : isB36Digit c = true) : ¬(c = ('&')) := by
  intro he
  subst he
  exact absurd h (by decide)

/-- Base-36 tokens contain no `&`. -/
theorem natToB36_ne_amp (n : Nat) : ∀ c ∈ (natToB36 n).data, ¬(c = ('&')) :=
  fun c hc => b36_digit_ne_amp c (natToB36Digits_all_digits n c hc)

/-- URL-substituted alphabet characters are not `&`. -/
theorem substToUrl_enc_ne_amp : ∀ w : Nat, ¬(substToUrl (b64EncChar w) = ('&')) := by
  intro w
  by_cases h : w < 64
  · revert h
    revert w
    decide
  · have hd : b64EncChar w = ('?') := by
      unfold b64EncChar
      exact List.getD_eq_default _ _ (by rw [show b64Alphabet.length = 64 from rfl]; omega)
    rw [hd]
    decide

/-- Every `btoa` output character is `=` or an alphabet character. -/
theorem mem_btoaChars : ∀ bs : List Nat, ∀ c ∈ btoaChars bs,
    c = ('=') ∨ ∃ w, c = b64EncChar w
  | [] => by intro c hc; simp [btoaChars] at hc
  | [b0] => by
    intro c hc
    simp only [btoaChars, List.mem_cons, List.not_mem_nil, or_false] at hc
    rcases hc with rfl | rfl | rfl | rfl
    · exact Or.inr ⟨_, rfl⟩
    · exact Or.inr ⟨_, rfl⟩
    · exact Or.inl rfl
    · exact Or.inl rfl
  | [b0, b1] => by
    intro c hc
    simp only [btoaChars, List.mem_cons, List.not_mem_nil, or_false] at hc
    rcases hc with rfl | rfl | rfl | rfl
    · exact Or.inr ⟨_, rfl⟩
    · exact Or.inr ⟨_, rfl⟩
    · exact Or.inr ⟨_, rfl⟩
    · exact Or.inl rfl
  | b0 :: b1 :: b2 :: rest => by
    intro c hc
    simp only [btoaChars, List.mem_cons] at hc
    rcases hc with rfl | rfl | rfl | rfl | h
    · exact Or.inr ⟨_, rfl⟩
    · exact Or.inr ⟨_, rfl⟩
    · exact Or.inr ⟨_, rfl⟩
    · exact Or.inr ⟨_, rfl⟩
    · exact mem_btoaChars rest c h

/-- Packed relic tokens contain no `&`. -/
theorem packRelicLevels_ne_amp (levels : List Int) :
    ∀ c ∈ (packRelicLevels levels).data, ¬(c = ('&')) := by
  intro c hc
  have h1 : c ∈ ((btoaChars ((List.range 6).map (fun i =>
      (((List.range 12).foldl (fun n i =>
        n ||| ((((clampRelicLv (levels.getD i 1)) - 1).toNat &&& 15) <<< ((11 - i) * 4)))
        0) >>> ((5 - i) * 8)) &&& 255))).map substToUrl) := by
    have h2 : c ∈ dropTrailingEqs ((btoaChars ((List.range 6).map (fun i =>
        (((List.range 12).foldl (fun n i =>
          n ||| ((((clampRelicLv (levels.getD i 1)) - 1).toNat &&& 15) <<< ((11 - i) * 4)))
          0) >>> ((5 - i) * 8)) &&& 255))).map substToUrl) := hc
    unfold dropTrailingEqs at h2
    have h3 := (List.mem_reverse).mp h2
    have h4 := (List.dropWhile_sublist _).subset h3
    exact (List.mem_reverse).mp h4
  obtain ⟨c0, hc0, rfl⟩ := List.mem_map.mp h1
  rcases mem_btoaChars _ c0 hc0 with rfl | ⟨w, rfl⟩
  · decide
  · exact substToUrl_enc_ne_amp w

/-- Packed other-buffs tokens contain no `&` (they are base-36 tokens). -/
theorem packOtherBuffs_ne_amp (other : OtherBuffs) :
    ∀ c ∈ (packOtherBuffs other).data, ¬(c = ('&')) :=
  fun c hc => natToB36_ne_amp _ c hc

/-- The key `r` is a well-formed parameter name. -/
theorem rKey_wf : ∀ c ∈ rKey, ¬(c = ('&')) ∧ ¬(c = ('=')) := by decide

/-- The key `o` is a well-formed parameter name. -/
theorem oKey_wf : ∀ c ∈ oKey, ¬(c = ('&')) ∧ ¬(c = ('=')) := by decide

/-- The `r` value (either form) contains no `&`. -/
theorem relicParamValue_ne_amp (levels : List Int) :
    ∀ c ∈ (relicParamValue levels).data, ¬(c = ('&')) := by
  unfold relicParamValue
  by_cases h : (levels.all (fun v => v == levels.getD 0 1)) = true
  · rw [if_pos h]
    exact natToB36_ne_amp _
  · rw [if_neg h]
    exact packRelicLevels_ne_amp levels

/-! ### Structure of the persisted parameter list -/

/-- Parsed search strings are well-formed. -/
theorem parseQS_wf (s : String) : qsWf (parseQS s) := parseQSData_wf _

/-- The two parameter keys differ. -/
theorem rKey_ne_oKey : ¬(rKey = oKey) := by decide

/-- The two parameter keys differ (other direction). -/
theorem oKey_ne_rKey : ¬(oKey = rKey) := by decide

/-- After the other-buffs branch, `o` is absent (default triple) or set to
the packed token (otherwise). -/
theorem persistParams_o_state (loc : Location) (ui : UIState) :
    (otherIsDefault (getOtherBuffsFromUI ui) = true ∧
      qsNoKey oKey (persistParams loc ui)) ∨
    (otherIsDefault (getOtherBuffsFromUI ui) = false ∧
      qsSetAt oKey (packOtherBuffs (getOtherBuffsFromUI ui)).data (persistParams loc ui)) := by
  unfold persistParams
  by_cases h : otherIsDefault (getOtherBuffsFromUI ui) = true
  · left
    refine ⟨h, ?_⟩
    rw [if_pos h]
    exact qsNoKey_delete_self _ _
  · right
    refine ⟨by simpa using h, ?_⟩
    rw [if_neg h]
    exact qsSet_setAt _ _ _

/-- After both branches, `r` is absent (all levels 1) or set to the relic
token (otherwise); the other-buffs branch does not disturb it. -/
theorem persistParams_r_state (loc : Location) (ui : UIState) :
    (((getRelicLevelsFromUI ui).all (fun v => v == 1)) = true ∧
      qsNoKey rKey (persistParams loc ui)) ∨
    (((getRelicLevelsFromUI ui).all (fun v => v == 1)) = false ∧
      qsSetAt rKey (relicParamValue (getRelicLevelsFromUI ui)).data
        (persistParams loc ui)) := by
  by_cases h : ((getRelicLevelsFromUI ui).all (fun v => v == 1)) = true
  · left
    refine ⟨h, ?_⟩
    have h1 : qsNoKey rKey (persistParamsR loc ui) := by
      unfold persistParamsR
      rw [if_pos h]
      exact qsNoKey_delete_self _ _
    unfold persistParams
    by_cases h2 : otherIsDefault (getOtherBuffsFromUI ui) = true
    · rw [if_pos h2]
      exact qsNoKey_qsDelete _ _ _ h1
    · rw [if_neg h2]
      exact qsNoKey_qsSet rKey oKey _ _ oKey_ne_rKey h1
  · right
    refine ⟨by simpa using h, ?_⟩
    have h1 : qsSetAt rKey (relicParamValue (getRelicLevelsFromUI ui)).data
        (persistParamsR loc ui) := by
      unfold persistParamsR
      rw [if_neg h]
      exact qsSet_setAt _ _ _
    unfold persistParams
    by_cases h2 : otherIsDefault (getOtherBuffsFromUI ui) = true
    · rw [if_pos h2]
      exact qsSetAt_qsDelete _ _ _ _ rKey_ne_oKey h1
    · rw [if_neg h2]
      exact qsSetAt_qsSet _ _ _ _ _ rKey_ne_oKey h1

/-- The persisted parameter list is well-formed. -/
theorem persistParams_wf (loc : Location) (ui : UIState) : qsWf (persistParams loc ui) := by
  have h0 : qsWf (parseQS loc.search) := parseQS_wf _
  have h1 : qsWf (persistParamsR loc ui) := by
    unfold persistParamsR
    by_cases h : ((getRelicLevelsFromUI ui).all (fun v => v == 1)) = true
    · rw [if_pos h]
      exact qsWf_qsDelete _ _ h0
    · rw [if_neg h]
      exact qsWf_qsSet _ _ _ h0 rKey_wf (relicParamValue_ne_amp _)
  unfold persistParams
  by_cases h : otherIsDefault (getOtherBuffsFromUI ui) = true
  · rw [if_pos h]
    exact qsWf_qsDelete _ _ h1
  · rw [if_neg h]
    exact qsWf_qsSet _ _ _ h1 oKey_wf (packOtherBuffs_ne_amp _)

/-- Strings with equal character lists are equal. -/
theorem string_eq_of_data {a b : String} (h : a.data = b.data) : a = b := by
  cases a
  cases b
  exact congrArg String.mk h

/-- `++` on strings concatenates the character lists. -/
theorem string_data_append (a b : String) : (a ++ b).data = a.data ++ b.data := rfl

/-- `persistStateToUrl` keeps pathname and hash, and leaves the search
string equal to the serialized parameter list (with its `?`), whether or
not `history.replaceState` ran. -/
theorem persist_fst_fields (loc : Location) (ui : UIState) :
    (persistStateToUrl loc ui).1.pathname = loc.pathname ∧
    (persistStateToUrl loc ui).1.hash = loc.hash ∧
    (persistStateToUrl loc ui).1.search =
      (if serializeQS (persistParams loc ui) = "" then ""
       else ("?") ++ serializeQS (persistParams loc ui)) := by
  unfold persistStateToUrl
  by_cases hchg : buildUrl loc (serializeQS (persistParams loc ui)) =
      loc.pathname ++ loc.search ++ loc.hash
  · rw [if_pos hchg]
    refine ⟨rfl, rfl, ?_⟩
    unfold buildUrl at hchg
    by_cases hq : serializeQS (persistParams loc ui) = ""
    · rw [if_pos hq]
      rw [if_pos hq] at hchg
      apply string_eq_of_data
      have hd := congrArg String.data hchg
      simp only [string_data_append] at hd
      have hd2 : loc.pathname.data ++ loc.hash.data =
          loc.pathname.data ++ (loc.search.data ++ loc.hash.data) := by
        simpa [List.append_assoc] using hd
      have hd3 := List.append_cancel_left hd2
      have hlen := congrArg List.length hd3
      simp only [List.length_append] at hlen
      have : loc.search.data.length = 0 := by omega
      simpa using List.eq_nil_of_length_eq_zero this
    · rw [if_neg hq]
      rw [if_neg hq] at hchg
      apply string_eq_of_data
      have hd := congrArg String.data hchg
      simp only [string_data_append] at hd
      have hd2 : loc.pathname.data ++ (('?') ::
          ((serializeQS (persistParams loc ui)).data ++ loc.hash.data)) =
          loc.pathname.data ++ (loc.search.data ++ loc.hash.data) := by
        simpa [List.append_assoc] using hd
      have hd3 := List.append_cancel_left hd2
      have hd4 : (('?') :: (serializeQS (persistParams loc ui)).data) ++ loc.hash.data =
          loc.search.data ++ loc.hash.data := by
        simpa using hd3
      have hd5 := List.append_cancel_right hd4
      exact hd5.symm
  · rw [if_neg hchg]
    exact ⟨rfl, rfl, rfl⟩

/-- Parsing the search string `persistStateToUrl` leaves behind recovers
exactly the parameter list it built. -/
theorem parseQS_persist (loc : Location) (ui : UIState) :
    parseQS (persistStateToUrl loc ui).1.search = persistParams loc ui := by
  rw [(persist_fst_fields loc ui).2.2]
  exact parseQS_serializeQS _ (persistParams_wf loc ui)

/-- Rebuilding the parameter list from the persisted location changes
nothing: each branch deletes an absent key or re-sets an identical pair. -/
theorem persistParams_stable (loc : Location) (ui : UIState) :
    persistParams (persistStateToUrl loc ui).1 ui = persistParams loc ui := by
  have hparse := parseQS_persist loc ui
  have hR : persistParamsR (persistStateToUrl loc ui).1 ui = persistParams loc ui := by
    show (if (getRelicLevelsFromUI ui).all (fun v => v == 1)
      then qsDelete rKey (parseQS (persistStateToUrl loc ui).1.search)
      else qsSet rKey (relicParamValue (getRelicLevelsFromUI ui)).data
        (parseQS (persistStateToUrl loc ui).1.search)) = persistParams loc ui
    rw [hparse]
    rcases persistParams_r_state loc ui with ⟨h, hst⟩ | ⟨h, hst⟩
    · rw [if_pos h]
      exact qsDelete_of_noKey _ _ hst
    · rw [if_neg (by simp [h])]
      exact qsSet_of_setAt _ _ _ hst
  show (if otherIsDefault (getOtherBuffsFromUI ui)
    then qsDelete oKey (persistParamsR (persistStateToUrl loc ui).1 ui)
    else qsSet oKey (packOtherBuffs (getOtherBuffsFromUI ui)).data
      (persistParamsR (persistStateToUrl loc ui).1 ui)) = persistParams loc ui
  rw [hR]
  rcases persistParams_o_state loc ui with ⟨h, hst⟩ | ⟨h, hst⟩
  · rw [if_pos h]
    exact qsDelete_of_noKey _ _ hst
  · rw [if_neg (by simp [h])]
    exact qsSet_of_setAt _ _ _ hst

/-! ### Claim C9 -/

/-- C9 (confirmed): for any location and fixed UI state, a second
`persistStateToUrl` call never mutates history: the URL it rebuilds equals
the one the first call left current, so the `newUrl !== curUrl` guard
fails and `history.replaceState` (the returned flag) is not invoked. -/
theorem claim_C9_persist_idempotent (loc : Location) (ui : UIState) :
    (persistStateToUrl (persistStateToUrl loc ui).1 ui).2 = false := by
  obtain ⟨hp, hh, hs⟩ := persist_fst_fields loc ui
  have hstable := persistParams_stable loc ui
  have hcond : buildUrl (persistStateToUrl loc ui).1
      (serializeQS (persistParams (persistStateToUrl loc ui).1 ui)) =
      (persistStateToUrl loc ui).1.pathname ++ (persistStateToUrl loc ui).1.search ++
        (persistStateToUrl loc ui).1.hash := by
    rw [hstable]
    unfold buildUrl
    rw [hp, hh, hs]
    by_cases hq : serializeQS (persistParams loc ui) = ""
    · rw [if_pos hq, if_pos hq]
      apply string_eq_of_data
      have hle : ("" : String).data = [] := rfl
      simp [string_data_append, hle]
    · rw [if_neg hq, if_neg hq]
      apply string_eq_of_data
      simp [string_data_append, List.append_assoc]
  show (if buildUrl (persistStateToUrl loc ui).1
      (serializeQS (persistParams (persistStateToUrl loc ui).1 ui)) =
      (persistStateToUrl loc ui).1.pathname ++ (persistStateToUrl loc ui).1.search ++
        (persistStateToUrl loc ui).1.hash
    then ((persistStateToUrl loc ui).1, false)
    else (Location.mk (persistStateToUrl loc ui).1.pathname
      (if serializeQS (persistParams (persistStateToUrl loc ui).1 ui) = "" then ""
       else ("?") ++ serializeQS (persistParams (persistStateToUrl loc ui).1 ui))
      (persistStateToUrl loc ui).1.hash, true)).2 = false
  rw [if_pos hcond]

/-! ### Claim C8 -/

/-- The option values of the `unitLevelSumBuff` select: the same format
the decoder emits, for doubled values 0..50
(`populateUnitLevelSumBuffSelect` in `party_ui.js`). -/
def unitLevelSumOptionValues : List String := (List.range 51).map unitStr

/-- A triple whose fields are actual option values of the three selects:
guild blessing 0..3, unit-level-sum option list, pet token list. -/
def UIReadableOther (o : OtherBuffs) : Prop :=
  o.guildBlessing ∈ [("0" : String), "1", "2", "3"] ∧
  o.unitLevelSumBuff ∈ unitLevelSumOptionValues ∧
  o.petLevelSum ∈ PET_LEVEL_SUM_VALUES

instance (o : OtherBuffs) : Decidable (UIReadableOther o) :=
  inferInstanceAs (Decidable (o.guildBlessing ∈ [("0" : String), "1", "2", "3"] ∧
    o.unitLevelSumBuff ∈ unitLevelSumOptionValues ∧
    o.petLevelSum ∈ PET_LEVEL_SUM_VALUES))

/-- Every readable triple survives the pack/unpack round trip. -/
theorem readable_roundtrip_core :
    ∀ g ∈ [("0" : String), "1", "2", "3"], ∀ u ∈ unitLevelSumOptionValues,
      ∀ p ∈ PET_LEVEL_SUM_VALUES,
      unpackOtherBuffs (packOtherBuffs ⟨g, u, p⟩) = some ⟨g, u, p⟩ := by decide

/-- The default triple passes the `otherIsDefault` test. -/
theorem otherIsDefault_default : otherIsDefault OTHER_DEFAULTS = true := by decide

/-- `"0"` is the only option value with numeric value 0. -/
theorem unit_option_zero : ∀ u ∈ unitLevelSumOptionValues,
    decNumEqb (jsNumber u) (jsNumber ("0")) = true → u = ("0") := by decide

/-- On readable triples the `otherIsDefault` test agrees with equality to
the default triple. -/
theorem otherIsDefault_eq_check (o : OtherBuffs) (h : UIReadableOther o)
    (hne : ¬(o = OTHER_DEFAULTS)) : otherIsDefault o = false := by
  obtain ⟨_, hu, _⟩ := h
  cases hdef : otherIsDefault o
  · rfl
  · exfalso
    apply hne
    unfold otherIsDefault at hdef
    simp only [Bool.and_eq_true, beq_iff_eq] at hdef
    obtain ⟨⟨h1, h2⟩, h3⟩ := hdef
    have h4 : o.unitLevelSumBuff = ("0") := unit_option_zero _ hu h2
    cases o
    have h5 : OtherBuffs.mk OTHER_DEFAULTS.guildBlessing ("0") OTHER_DEFAULTS.petLevelSum =
        OTHER_DEFAULTS := rfl
    rw [← h5, ← h1, ← h4, ← h3]

/-- C8 (confirmed): persisting the exact default triple leaves no `o`
parameter in the resulting search string (deleting any present one), and
persisting any non-default triple made of actual select option values sets
`o` to the packed token, whose decode reproduces the triple. -/
theorem claim_C8_default_suppression (loc : Location) (ui : UIState) :
    (getOtherBuffsFromUI ui = OTHER_DEFAULTS →
      qsGet oKey (parseQS (persistStateToUrl loc ui).1.search) = none) ∧
    (UIReadableOther (getOtherBuffsFromUI ui) →
      ¬(getOtherBuffsFromUI ui = OTHER_DEFAULTS) →
      qsGet oKey (parseQS (persistStateToUrl loc ui).1.search) =
        some (packOtherBuffs (getOtherBuffsFromUI ui)).data ∧
      unpackOtherBuffs (packOtherBuffs (getOtherBuffsFromUI ui)) =
        some (getOtherBuffsFromUI ui)) := by
  constructor
  · intro hdef
    rw [parseQS_persist loc ui]
    rcases persistParams_o_state loc ui with ⟨_, hst⟩ | ⟨h, _⟩
    · exact qsGet_of_noKey _ _ hst
    · rw [hdef, otherIsDefault_default] at h
      cases h
  · intro hread hne
    have hfalse : otherIsDefault (getOtherBuffsFromUI ui) = false :=
      otherIsDefault_eq_check _ hread hne
    constructor
    · rw [parseQS_persist loc ui]
      rcases persistParams_o_state loc ui with ⟨h, _⟩ | ⟨_, hst⟩
      · rw [hfalse] at h
        cases h
      · exact qsGet_of_setAt _ _ _ hst
    · obtain ⟨hg, hu, hp⟩ := hread
      exact readable_roundtrip_core _ hg _ hu _ hp

/-- C8 witness: a default UI state (no `o` emitted) and the deviating
triple (`"2"`, `"3.5"`, third token) at a concrete location. -/
theorem claim_C8_witness :
    (qsGet oKey (parseQS (persistStateToUrl (Location.mk ("/x") ("") (""))
        (UIState.mk (List.replicate 12 ("1")) ("1") ("0") ("hoge"))).1.search) = none) ∧
    (qsGet oKey (parseQS (persistStateToUrl (Location.mk ("/x") ("") (""))
        (UIState.mk (List.replicate 12 ("1")) ("2") ("3.5") ("piyo"))).1.search) =
      some (packOtherBuffs (OtherBuffs.mk ("2") ("3.5") ("piyo"))).data ∧
     unpackOtherBuffs (packOtherBuffs (OtherBuffs.mk ("2") ("3.5") ("piyo"))) =
      some (OtherBuffs.mk ("2") ("3.5") ("piyo"))) :=
  ⟨(claim_C8_default_suppression (Location.mk ("/x") ("") (""))
      (UIState.mk (List.replicate 12 ("1")) ("1") ("0") ("hoge"))).1 (by decide),
   (claim_C8_default_suppression (Location.mk ("/x") ("") (""))
      (UIState.mk (List.replicate 12 ("1")) ("2") ("3.5") ("piyo"))).2
      (by decide) (by decide)⟩
